import Mathlib

/-!
Verification of the multi-agent process-optimization orchestrator.

The Python sources are embedded shallowly: strings are `String`/`List Char`,
Python's `json.loads` is modelled by an executable recursive-descent parser
(`json_loads`, integers only), dictionaries are association lists with
Python's in-place-update semantics, exceptions are `Except` values, and the
LLM completion service, web search, XML scan and the two modules that are
absent from the source tree (`core.llm_interface`, `utils.language`) are
oracle fields of an environment record, matching the mocking boundary used
by the repository's own test-suite (`utils/test_orchestrator.py`).
-/

namespace AIPO

/-! ## Characters and Python string helpers -/

/-- The single-quote character, written via its code point. -/
def squote : Char := Char.ofNat 39

/-- The double-quote character, written via its code point. -/
def dquote : Char := Char.ofNat 34

/-- The backslash character. -/
def bslash : Char := Char.ofNat 92

/-- Whitespace for Python `str.strip()` (space, tab, newline, CR, VT, FF). -/
def pyWs (c : Char) : Bool :=
  c = ' ' || c = '\t' || c = '\n' || c = '\r' || c = Char.ofNat 11 || c = Char.ofNat 12

/-- Whitespace class of the regex `[ \t\r\n]` used by the trailing-comma fixups. -/
def reWs (c : Char) : Bool :=
  c = ' ' || c = '\t' || c = '\r' || c = '\n'

/-- Python `str.strip()` on a character list. -/
def pyStrip (l : List Char) : List Char :=
  ((l.dropWhile pyWs).reverse.dropWhile pyWs).reverse

/-- Python `str.strip()` on a `String`. -/
def pyStripStr (s : String) : String := ⟨pyStrip s.data⟩

/-- Python `str.startswith`. -/
def pyStartsWith (l pre : List Char) : Bool := pre.isPrefixOf l

/-- Python `str.endswith`. -/
def pyEndsWith (l suf : List Char) : Bool := suf.reverse.isPrefixOf l.reverse

/-- Index of the first occurrence of `c` (Python `str.find`, as an `Option`). -/
def firstIdxOf (c : Char) (l : List Char) : Option Nat := l.findIdx? (· = c)

/-- Index of the last occurrence of `c` (Python `str.rfind`, as an `Option`). -/
def lastIdxOf (c : Char) (l : List Char) : Option Nat :=
  match (l.reverse).findIdx? (· = c) with
  | some k => some (l.length - 1 - k)
  | none => none

/-- Python slice `l[i:j+1]`. -/
def pySlice (l : List Char) (i j : Nat) : List Char := (l.drop i).take (j + 1 - i)

/-- Embeds `re.search(r'\{.*\}', s, re.DOTALL)`: greedy, so the match (when it
exists) spans the first `{` through the last `}`. -/
def braceSlice (l : List Char) : Option (List Char) :=
  match firstIdxOf '{' l, lastIdxOf '}' l with
  | some i, some j => if i < j then some (pySlice l i j) else none
  | _, _ => none

/-- Embeds `re.search(r'\[.*\]', s, re.DOTALL)`: first `[` through the last `]`. -/
def bracketSlice (l : List Char) : Option (List Char) :=
  match firstIdxOf '[' l, lastIdxOf ']' l with
  | some i, some j => if i < j then some (pySlice l i j) else none
  | _, _ => none

/-- Python `str.split()` with no argument, one character at a time: `acc`
holds the reversed current word; whitespace closes a word, and empty pieces
are discarded. -/
def pySplitAux : List Char → List Char → List (List Char)
  | [], acc => if acc = [] then [] else [acc.reverse]
  | c :: t, acc =>
    if pyWs c then
      if acc = [] then pySplitAux t [] else acc.reverse :: pySplitAux t []
    else pySplitAux t (c :: acc)

/-- Python `str.split()` with no argument: split on whitespace runs,
discarding empty pieces. -/
def pySplit (l : List Char) : List (List Char) := pySplitAux l []

/-- Python `str.split()` on a `String`, yielding `String` words. -/
def pyWords (s : String) : List String := (pySplit s.data).map List.asString

/-! ## JSON values (the subset of Python's `json` module that the repair
paths exercise; numbers are restricted to integers) -/

/-- A parsed JSON value, as produced by `json.loads`. -/
inductive PyJson where
  | null : PyJson
  | bool (b : Bool) : PyJson
  | int (n : Int) : PyJson
  | str (s : String) : PyJson
  | arr (xs : List PyJson) : PyJson
  | obj (kvs : List (String × PyJson)) : PyJson

/-- Python dict insertion: an existing key keeps its position and takes the
new value, a new key is appended. -/
def pyDictInsert (l : List (String × PyJson)) (k : String) (v : PyJson) :
    List (String × PyJson) :=
  match l with
  | [] => [(k, v)]
  | (k', v') :: t => if k' = k then (k', v) :: t else (k', v') :: pyDictInsert t k v

/-- Collapse duplicate keys the way repeated Python dict insertion does. -/
def dedupKvs (l : List (String × PyJson)) : List (String × PyJson) :=
  l.foldl (fun acc kv => pyDictInsert acc kv.1 kv.2) []

/-- Python dict lookup `d.get(k, default)` on an association list. -/
def pyLookup (l : List (String × PyJson)) (k : String) : Option PyJson :=
  match l with
  | [] => none
  | (k', v) :: t => if k' = k then some v else pyLookup t k

/-! ## The `json.loads` model: recursive-descent parsing -/

/-- JSON inter-token whitespace. -/
def jsonWs (c : Char) : Bool := c = ' ' || c = '\t' || c = '\n' || c = '\r'

/-- Skip JSON whitespace. -/
def skipWs (l : List Char) : List Char := l.dropWhile jsonWs

/-- Parse a JSON string body after the opening quote, handling the escape
sequences `\" \\ \/ \b \f \n \r \t \uXXXX` and rejecting raw control
characters, as Python's strict-mode scanner does. -/
def parse_string_body (l : List Char) : Option (List Char × List Char) :=
  match l with
  | [] => none
  | c :: rest =>
    if c = dquote then some ([], rest)
    else if c = bslash then
      match rest with
      | [] => none
      | e :: rest2 =>
        if e = dquote then (parse_string_body rest2).map (fun p => (dquote :: p.1, p.2))
        else if e = bslash then (parse_string_body rest2).map (fun p => (bslash :: p.1, p.2))
        else if e = '/' then (parse_string_body rest2).map (fun p => ('/' :: p.1, p.2))
        else if e = 'b' then (parse_string_body rest2).map (fun p => (Char.ofNat 8 :: p.1, p.2))
        else if e = 'f' then (parse_string_body rest2).map (fun p => (Char.ofNat 12 :: p.1, p.2))
        else if e = 'n' then (parse_string_body rest2).map (fun p => ('\n' :: p.1, p.2))
        else if e = 'r' then (parse_string_body rest2).map (fun p => ('\r' :: p.1, p.2))
        else if e = 't' then (parse_string_body rest2).map (fun p => ('\t' :: p.1, p.2))
        else if e = 'u' then
          match rest2 with
          | h1 :: h2 :: h3 :: h4 :: rest3 =>
            if isHex h1 && isHex h2 && isHex h3 && isHex h4 then
              let v := 4096 * hexVal h1 + 256 * hexVal h2 + 16 * hexVal h3 + hexVal h4
              (parse_string_body rest3).map (fun p => (Char.ofNat v :: p.1, p.2))
            else none
          | _ => none
        else none
    else if c.toNat < 32 then none
    else (parse_string_body rest).map (fun p => (c :: p.1, p.2))
termination_by l.length
decreasing_by all_goals (simp_all; try omega)
where
  /-- Hexadecimal digit test. -/
  isHex (c : Char) : Bool :=
    (48 ≤ c.toNat && c.toNat ≤ 57) || (97 ≤ c.toNat && c.toNat ≤ 102) ||
      (65 ≤ c.toNat && c.toNat ≤ 70)
  /-- Value of a hexadecimal digit. -/
  hexVal (c : Char) : Nat :=
    if c.toNat ≥ 97 then c.toNat - 87 else if c.toNat ≥ 65 then c.toNat - 55 else c.toNat - 48

/-- Numeric value of a big-endian list of decimal digit characters. -/
def digsVal (l : List Char) : Nat :=
  l.foldl (fun a c => 10 * a + (c.toNat - 48)) 0

/-- Parse a JSON number. Restricted to integers: a fraction or exponent makes
the model parser fail where Python would produce a float. -/
def parse_number (l : List Char) : Option (PyJson × List Char) :=
  let neg : Bool := l.head? = some '-'
  let l1 := if neg then l.tail else l
  let digits := l1.takeWhile Char.isDigit
  let rest := l1.dropWhile Char.isDigit
  if digits.isEmpty then none
  else if digits.length > 1 && digits.headI = '0' then none
  else if rest.head? = some '.' || rest.head? = some 'e' || rest.head? = some 'E' then none
  else
    let v : Int := if neg then -(digsVal digits : Int) else (digsVal digits : Int)
    some (.int v, rest)

mutual

/-- Parse one JSON value (fuel-indexed recursive descent). -/
def parse_value : Nat → List Char → Option (PyJson × List Char)
  | 0, _ => none
  | fuel + 1, s =>
    match skipWs s with
    | [] => none
    | c :: rest =>
      if c = '{' then
        match skipWs rest with
        | [] => none
        | d :: r =>
          if d = '}' then some (.obj [], r)
          else (parse_members fuel (d :: r)).map (fun p => (.obj (dedupKvs p.1), p.2))
      else if c = '[' then
        match skipWs rest with
        | [] => none
        | d :: r =>
          if d = ']' then some (.arr [], r)
          else (parse_elems fuel (d :: r)).map (fun p => (.arr p.1, p.2))
      else if c = dquote then
        (parse_string_body rest).map (fun p => (.str ⟨p.1⟩, p.2))
      else if pyStartsWith (c :: rest) "true".data then some (.bool true, rest.drop 3)
      else if pyStartsWith (c :: rest) "false".data then some (.bool false, rest.drop 4)
      else if pyStartsWith (c :: rest) "null".data then some (.null, rest.drop 3)
      else parse_number (c :: rest)

/-- Parse the elements of a non-empty JSON array, up to and including the
closing bracket. -/
def parse_elems : Nat → List Char → Option (List PyJson × List Char)
  | 0, _ => none
  | fuel + 1, s =>
    match parse_value fuel s with
    | none => none
    | some (v, r) =>
      match skipWs r with
      | [] => none
      | d :: r2 =>
        if d = ',' then
          match parse_elems fuel r2 with
          | some (vs, r3) => some (v :: vs, r3)
          | none => none
        else if d = ']' then some ([v], r2)
        else none

/-- Parse the members of a non-empty JSON object, up to and including the
closing brace. -/
def parse_members : Nat → List Char → Option (List (String × PyJson) × List Char)
  | 0, _ => none
  | fuel + 1, s =>
    match skipWs s with
    | [] => none
    | c :: rest =>
      if c = dquote then
        match parse_string_body rest with
        | none => none
        | some (key, r) =>
          match skipWs r with
          | [] => none
          | d :: r2 =>
            if d = ':' then
              match parse_value fuel r2 with
              | none => none
              | some (v, r3) =>
                match skipWs r3 with
                | [] => none
                | e :: r4 =>
                  if e = ',' then
                    match parse_members fuel r4 with
                    | some (kvs, r5) => some ((⟨key⟩, v) :: kvs, r5)
                    | none => none
                  else if e = '}' then some ([(⟨key⟩, v)], r4)
                  else none
            else none
      else none

end

/-- The model of Python `json.loads`: parse one value, then require only
whitespace to remain; any failure is `none` (Python raises `JSONDecodeError`). -/
def json_loads (l : List Char) : Option PyJson :=
  match parse_value (l.length + 1) l with
  | some (v, rest) => if skipWs rest = [] then some v else none
  | none => none

/-- Embeds `json.loads` on a `String`. -/
def json_loads_str (s : String) : Option PyJson := json_loads s.data

/-! ## Serializers for the repair round-trip claim

`serF q trail` is a family of writers: `q` is the string-delimiter
character (double quote gives standard JSON, single quote gives the
"single-quoted JSON" format) and `trail` adds a trailing comma inside every
non-empty array and object ("JSON with trailing commas"). -/

/-- Big-endian decimal digits of a natural number. -/
def natDigs (n : Nat) : List Char :=
  if h : n < 10 then [Char.ofNat (48 + n)]
  else natDigs (n / 10) ++ [Char.ofNat (48 + n % 10)]
termination_by n
decreasing_by exact Nat.div_lt_self (by omega) (by omega)

/-- Serialize an integer the way `json.dumps` renders Python ints. -/
def serInt (n : Int) : List Char :=
  if n < 0 then '-' :: natDigs n.natAbs else natDigs n.natAbs

mutual

/-- Serialize one JSON value with delimiter `q`, optionally with trailing
commas. -/
def serF (q : Char) (trail : Bool) : PyJson → List Char
  | .null => "null".data
  | .bool true => "true".data
  | .bool false => "false".data
  | .int n => serInt n
  | .str s => q :: s.data ++ [q]
  | .arr xs => '[' :: serFElems q trail xs ++ (if xs.isEmpty || !trail then [] else [',']) ++ [']']
  | .obj kvs =>
    '{' :: serFKvs q trail kvs ++ (if kvs.isEmpty || !trail then [] else [',']) ++ ['}']

/-- Serialize array elements, comma-separated. -/
def serFElems (q : Char) (trail : Bool) : List PyJson → List Char
  | [] => []
  | [x] => serF q trail x
  | x :: y :: t => serF q trail x ++ ',' :: serFElems q trail (y :: t)

/-- Serialize object members, comma-separated. -/
def serFKvs (q : Char) (trail : Bool) : List (String × PyJson) → List Char
  | [] => []
  | [(k, v)] => q :: k.data ++ q :: ':' :: serF q trail v
  | (k, v) :: m :: t => q :: k.data ++ q :: ':' :: serF q trail v ++ ',' :: serFKvs q trail (m :: t)

end

/-- Canonical JSON serialization (double quotes, no trailing commas). -/
def ser (x : PyJson) : List Char := serF dquote false x

/-- The single-quoted serialization format. -/
def ser_single (x : PyJson) : List Char := serF squote false x

/-- The trailing-comma serialization format. -/
def ser_trail (x : PyJson) : List Char := serF dquote true x

/-- The code-fence-wrapped serialization format. -/
def fence_wrap (l : List Char) : List Char := "```json\n".data ++ l ++ "\n```".data

/-- A character that cannot interfere with any of the textual fixups: not a
quote of either kind, not a backslash, not a brace or bracket, and not a
control character. -/
def safeChar (c : Char) : Bool :=
  !(c = squote || c = dquote || c = bslash || c = '{' || c = '}' || c = '[' ||
    c = ']' || c.toNat < 32)

mutual

/-- All string atoms and keys of a value consist of safe characters, and no
object has duplicate keys. -/
def safeJson : PyJson → Bool
  | .null => true
  | .bool _ => true
  | .int _ => true
  | .str s => s.data.all safeChar
  | .arr xs => safeElems xs
  | .obj kvs => safeKvs kvs && (kvs.map Prod.fst).Nodup

/-- Safety for a list of array elements. -/
def safeElems : List PyJson → Bool
  | [] => true
  | x :: t => safeJson x && safeElems t

/-- Safety for a list of object members. -/
def safeKvs : List (String × PyJson) → Bool
  | [] => true
  | (k, v) :: t => k.data.all safeChar && safeJson v && safeKvs t

end

/-! ## The structured-output repair functions -/

/-- The regex substitution `re.sub(r',([ \t\r\n]*[}\]])', r'\1', s)`:
left-to-right single pass removing commas that precede (possibly after
whitespace) a closing brace or bracket. -/
def comma_fix : List Char → List Char
  | [] => []
  | c :: rest =>
    if c = ',' then
      match h : rest.dropWhile reWs with
      | b :: tail =>
        if b = '}' || b = ']' then rest.takeWhile reWs ++ b :: comma_fix tail
        else ',' :: comma_fix rest
      | [] => ',' :: comma_fix rest
    else c :: comma_fix rest
termination_by l => l.length
decreasing_by
  · have h1 : (rest2.dropWhile reWs).length ≤ rest2.length :=
      (List.dropWhile_sublist _).length_le
    rw [h] at h1
    simp only [List.length_cons] at h1
    simp only [List.length_cons]
    omega
  · simp
  · simp
  · simp

/-- Replace every single quote by a double quote
(`re.sub(r"'", '"', s)`). -/
def quote_fix (l : List Char) : List Char :=
  l.map (fun c => if c = squote then dquote else c)

/-- Embeds `SolutionGenerationAgent._extract_json`: strip code fences, slice to the
outermost braces, return the slice if it parses, otherwise apply the
quote/trailing-comma fixups and return the fixed text if that parses;
otherwise return the empty string (the Python function returns `""`). -/
def extract_json (response : List Char) : List Char :=
  let r0 := pyStrip response
  let r1 := if pyStartsWith r0 "```json".data then pyStrip (r0.drop 7) else r0
  let r2 := if pyStartsWith r1 "```".data then pyStrip (r1.drop 3) else r1
  let r3 := if pyEndsWith r2 "```".data then pyStrip (r2.take (r2.length - 3)) else r2
  match braceSlice r3 with
  | some json_str =>
    if (json_loads json_str).isSome then json_str
    else
      let fixed := comma_fix (quote_fix json_str)
      if (json_loads fixed).isSome then fixed else []
  | none => []

/-- Embeds `_extract_json` on `String`s. -/
def extract_json_str (s : String) : String := ⟨extract_json s.data⟩

/-- The local `fix_json` helper of `WorkflowOrchestrator._modify_diagram`:
strip, replace single quotes, remove trailing commas, then slice from the
first `{` to the last `}` when both exist (no order check). -/
def fix_json (s : List Char) : List Char :=
  let s1 := pyStrip s
  let s2 := quote_fix s1
  let s3 := comma_fix s2
  match firstIdxOf '{' s3, lastIdxOf '}' s3 with
  | some first, some last => (s3.drop first).take (last + 1 - first)
  | _, _ => s3

/-! ## Fuel weights: enough fuel for `parse_value` to consume a canonical
serialization -/

mutual

/-- Fuel needed to parse `ser x`. -/
def Wv : PyJson → Nat
  | .null => 1
  | .bool _ => 1
  | .int _ => 1
  | .str _ => 1
  | .arr xs => 1 + Wl xs
  | .obj kvs => 1 + Wk kvs

/-- Fuel needed by `parse_elems` on serialized elements. -/
def Wl : List PyJson → Nat
  | [] => 0
  | x :: t => 1 + Wv x + Wl t

/-- Fuel needed by `parse_members` on serialized members. -/
def Wk : List (String × PyJson) → Nat
  | [] => 0
  | (_, v) :: t => 1 + Wv v + Wk t

end

/-- Characters that may legally follow a serialized value in the round-trip
proofs: nothing, or a separator/closer. -/
def sepOk (l : List Char) : Bool :=
  match l with
  | [] => true
  | c :: _ => c = ',' || c = ']' || c = '}'

/-- Characters that can begin a serialized value: not whitespace, not a
closer, not a separator. -/
def headOk (c : Char) : Bool :=
  !(jsonWs c || c = ']' || c = '}' || c = ',' || c = ':')

/-- A non-empty array or object: exactly the values whose trailing-comma
serialization differs from the canonical one. -/
def isBig : PyJson → Bool
  | .arr (_ :: _) => true
  | .obj (_ :: _) => true
  | _ => false

/-! ## Typed records (core/models.py, pydantic models) -/

/-- Embeds `core.models.ProcessDescription` (optional fields with their defaults). -/
structure ProcessDescription where
  name : String
  steps : List String
  inputs : List String
  outputs : List String
  pain_points : List String
  metrics : List (String × String)
  goal : Option String
deriving DecidableEq

/-- Embeds `core.models.BottleneckHypothesis`. -/
structure BottleneckHypothesis where
  location : String
  reason_hypothesis : String
  info_needed : List String
deriving DecidableEq

/-- Embeds `core.models.VerifiedInformation`. -/
structure VerifiedInformation where
  query : String
  sources : List String
  summary : String
  confidence : String
  relevance : String
deriving DecidableEq

/-- Embeds `core.models.ProposedImprovement`. -/
structure ProposedImprovement where
  step_number : Option Int
  description : String
  expected_impact : String
  tools_or_tech : List String
  actors_involved : List String
deriving DecidableEq

/-- Embeds `core.models.ImprovedProcess`. -/
structure ImprovedProcess where
  name : String
  original_process : ProcessDescription
  improvements : List ProposedImprovement
  improved_steps : List String
  summary_of_changes : String
deriving DecidableEq

/-- The dict returned by `VisualizationAgent.generate_diagram` (its keys
`diagram_data`, `diagram_name`, `diagram_description`,
`detail_descriptions` are always present in the source, including in the
fallback path). -/
structure VizResult where
  diagram_data : String
  diagram_name : String
  diagram_description : String
  detail_descriptions : List (String × PyJson)

/-! ## Generic Python dict/string helpers used by the orchestrator -/

/-- Python dict assignment `d[k] = v` on an association list of arbitrary
values: replace in place, or append a fresh key at the end. -/
def pyAssocSet {α : Type} : List (String × α) → String → α → List (String × α)
  | [], k, v => [(k, v)]
  | (k0, v0) :: t, k, v =>
    if k0 = k then (k0, v) :: t else (k0, v0) :: pyAssocSet t k v

/-- Python `d.get(k)` on an association list of arbitrary values. -/
def pyAssocGet {α : Type} : List (String × α) → String → Option α
  | [], _ => none
  | (k0, v0) :: t, k => if k0 = k then some v0 else pyAssocGet t k

/-- Python `del d[k]` on an association list. -/
def pyAssocDel {α : Type} : List (String × α) → String → List (String × α)
  | [], _ => []
  | (k0, v0) :: t, k => if k0 = k then t else (k0, v0) :: pyAssocDel t k

/-- Python `str.lower()` (ASCII case folding). -/
def pyLower (s : String) : String := ⟨s.data.map Char.toLower⟩

/-- Python `', '.join(xs)` style joining. -/
def pyJoin (sep : String) (xs : List String) : String := String.intercalate sep xs

/-! ## Session state (core/orchestrator.py) -/

/-- One agent-collaborator invocation made by the orchestrator; workflow
functions return the list of invocations they performed, so that "performs
zero X calls" properties can be stated. -/
inductive AgentCall where
  | intentCall
  | convTypeCall
  | contextCall
  | bottleneckCall
  | irCall
  | solutionCall
  | vizCall
  | answerCall
  | modifyCall
deriving DecidableEq

/-- The `data` dicts the orchestrator stores in a session and returns to
callers, one constructor per shape occurring in the source. -/
inductive WfData where
  | clarif (clarification_message : String)
  | vis (process_name : String) (process_steps : List String) (diagram_data : String)
      (diagram_name : String) (diagram_description : String)
      (detail_descriptions : PyJson) (memory : String)
  | improved (improved_process_summary : String) (improved_process_steps : List String)
      (diagram_data : String) (diagram_name : String) (diagram_description : String)
      (detail_descriptions : PyJson) (memory : String)
  | conv (action : String) (diagram_data : PyJson) (detail_descriptions : PyJson)
      (answer : PyJson) (memory : String)
  | statusCompleted (improved_process_summary : String)
      (improved_process_steps : List String) (diagram_data : Option String)
      (diagram_description : Option String) (detail_descriptions : PyJson)
  | statusOther (last_step : Option String)

/-- The structured `{status, message, session_id?, data?}` result dict every
orchestrator operation returns. -/
structure WfResult where
  status : String
  message : String
  session_id : Option String
  data : Option WfData

/-- One session record (the dict created by `start_new_session`; the
`message` and `data` keys are absent until a workflow first assigns them,
hence `Option`). `detail_descriptions` is initialized to a Python list `[]`
and later overwritten with a dict, so it is carried as a `PyJson` value. -/
structure SessionData where
  user_id : String
  query : Option String
  original_file_texts : Option String
  original_file_type : Option String
  process_desc : Option ProcessDescription
  bottlenecks : List BottleneckHypothesis
  verified_info : List VerifiedInformation
  improved_process : Option ImprovedProcess
  diagram_data : Option String
  diagram_description : Option String
  detail_descriptions : PyJson
  visualization_memory : String
  conversation_memory : String
  status : String
  last_step_completed : Option String
  message : Option String
  data : Option WfData

/-- The orchestrator's `self.sessions` dict. -/
def Sessions := List (String × SessionData)

/-- The collaborator boundary: `core.llm_interface.call_gemini` and the agent
objects the orchestrator holds. Missing from `src/` are
`core/llm_interface.py` and `utils/language.py`; their call sites are
modelled from the spec as opaque collaborator functions ("Completion
collaborator: the external text-generation service treated as an opaque
function"). Each in-orchestrator LLM call site is a field applied to the
values interpolated into its prompt; each agent method the orchestrator
invokes is a field with the method's typed signature, and a `.error`
result models the call raising a Python exception. -/
structure Env where
  intentLLM : String → Except String String
  convTypeLLM : String → Except String String
  answerLLM : String → String → String → Option String → String → Except String String
  modifyLLM : String → String → String → Option String → String → Except String String
  process_query : String → Except String ProcessDescription
  identify_bottlenecks : ProcessDescription → Option VerifiedInformation →
      Except String (List BottleneckHypothesis)
  retrieve_and_verify : String → Except String VerifiedInformation
  generate_solutions : ProcessDescription → List BottleneckHypothesis →
      List VerifiedInformation → Except String ImprovedProcess
  generate_diagram : String → List String → String → String → Except String VizResult
  detect_language : String → String
  now : String

/-- Embeds `WorkflowOrchestrator.start_new_session`; `uuid.uuid4()` is modelled by
the caller-supplied fresh `session_id`. -/
def start_new_session (sessions : Sessions) (session_id user_id : String) :
    String × Sessions :=
  (session_id, pyAssocSet sessions session_id
    { user_id := user_id, query := none, original_file_texts := none,
      original_file_type := none, process_desc := none, bottlenecks := [],
      verified_info := [], improved_process := none, diagram_data := none,
      diagram_description := none, detail_descriptions := .arr [],
      visualization_memory := "", conversation_memory := "",
      status := "Initialized", last_step_completed := none,
      message := none, data := none })

/-- Embeds `WorkflowOrchestrator.determine_user_intent`: normalize the completion
response with `strip().lower()`, accept it only when it is one of the four
intent words, and fall back to `"conversation"` on anything else or on an
exception. -/
def determine_user_intent (env : Env) (query : String) : String :=
  match env.intentLLM query with
  | .ok resp =>
    let intent := pyLower (pyStripStr resp)
    if intent = "visualize" || intent = "improve" || intent = "analyze" ||
        intent = "conversation" then intent
    else "conversation"
  | .error _ => "conversation"

/-- Embeds `WorkflowOrchestrator._determine_conversation_type`. -/
def determine_conversation_type (env : Env) (query : String) : String :=
  match env.convTypeLLM query with
  | .ok resp =>
    let t := pyLower (pyStripStr resp)
    if t = "question" || t = "modification" || t = "information" then t
    else "question"
  | .error _ => "question"

/-- Embeds `get_language_instruction`: `LANGUAGE_INSTRUCTIONS.get(language, en)`. -/
def get_language_instruction (language : String) : String :=
  if language = "vi" then
    "Trả lời người dùng bằng tiếng Việt. Tất cả giải thích, tóm tắt, và mô tả phải sử dụng tiếng Việt."
  else
    "Answer the user in English. All explanations, summaries, and descriptions must be in English."

/-- The localized "sorry, could not process" fallback summary used by
`_modify_diagram`. -/
def fallback_message (language : String) : String :=
  if language = "vi" then
    "Xin lỗi, tôi không thể xử lý yêu cầu của bạn. Vui lòng thử lại."
  else
    "Sorry, I could not process your request. Please try again."

/-- Embeds `WorkflowOrchestrator._answer_diagram_question`: one completion call; on
an exception, the apologetic fallback answer. -/
def answer_diagram_question (env : Env) (query diagram_data memory : String)
    (sd : SessionData) (language : String) : String :=
  match env.answerLLM query diagram_data memory sd.diagram_description language with
  | .ok a => a
  | .error _ =>
    "I\x27m sorry, I couldn\x27t process your question at the moment. Please try again."

/-- The dict `_modify_diagram` returns. -/
structure ModResult where
  diagram_data : PyJson
  detail_descriptions : PyJson
  summary : PyJson

/-- The all-fixups-failed / exception fallback dict of `_modify_diagram`. -/
def modFallback (diagram_data : String) (language : String) : ModResult :=
  { diagram_data := .str diagram_data, detail_descriptions := .obj [],
    summary := .str (fallback_message language) }

/-- The final `return` of `_modify_diagram` on a parsed JSON value:
`result.get(...)` with the source defaults. A non-dict parse raises
`AttributeError` inside the surrounding `try`, which lands in the same
fallback. -/
def mkModResult (result : PyJson) (diagram_data : String) (language : String) :
    ModResult :=
  match result with
  | .obj kvs =>
    { diagram_data := (pyLookup kvs "diagram_data").getD (.str diagram_data),
      detail_descriptions := (pyLookup kvs "detail_descriptions").getD (.obj []),
      summary := (pyLookup kvs "summary").getD (.str (fallback_message language)) }
  | _ => modFallback diagram_data language

/-- The `json.loads` input of `_modify_diagram`: the regex brace-slice match
when one exists, else the raw completion response. -/
def mod_json_str (response : String) : List Char :=
  match braceSlice response.data with
  | some m => m
  | none => response.data

/-- Embeds `WorkflowOrchestrator._modify_diagram` continued: try `json.loads` on the
slice, then on the `fix_json` fixup, and fall back on double failure. -/
def modify_diagram (env : Env) (query diagram_data memory : String)
    (sd : SessionData) (language : String) : ModResult :=
  match env.modifyLLM query diagram_data memory sd.diagram_description language with
  | .error _ => modFallback diagram_data language
  | .ok response =>
    let json_str := mod_json_str response
    match json_loads json_str with
    | some result => mkModResult result diagram_data language
    | none =>
      match json_loads (fix_json json_str) with
      | some result => mkModResult result diagram_data language
      | none => modFallback diagram_data language

/-- Embeds `WorkflowOrchestrator._add_information`. -/
def add_information (query memory : String) : String :=
  if memory ≠ "" then memory ++ "\nAdditional Information: " ++ query
  else "Additional Information: " ++ query

/-- Python `str(x)` as used when a repaired JSON value is interpolated into
an f-string; only the `.str` case is exercised by any claim. -/
def pyToStr : PyJson → String
  | .str s => s
  | x => ⟨ser_single x⟩

/-- Embeds `WorkflowOrchestrator.handle_conversation`. -/
def handle_conversation (env : Env) (sessions : Sessions)
    (session_id query diagram_data memory : String) :
    WfResult × Sessions × List AgentCall :=
  match pyAssocGet sessions session_id with
  | none => ({ status := "error", message := "Invalid session ID.",
               session_id := none, data := none }, sessions, [])
  | some sd0 =>
    let sd1 := { sd0 with
      query := some query
      status := "Processing Conversation"
      last_step_completed := none }
    let conversation_type := determine_conversation_type env query
    let language := env.detect_language query
    if conversation_type = "question" then
      let answer := answer_diagram_question env query diagram_data memory sd1 language
      let mem2 := memory ++ "\nQ: " ++ query ++ "\nA: " ++ answer
      let d : WfData := .conv "answer_question" (.str diagram_data) (.obj [])
        (.str answer) mem2
      let sd2 := { sd1 with
        conversation_memory := mem2
        status := "completed"
        message := some "Question answered successfully!"
        data := some d }
      ({ status := "completed", message := "Question answered successfully!",
         session_id := some session_id, data := some d },
       pyAssocSet sessions session_id sd2,
       [.convTypeCall, .answerCall])
    else if conversation_type = "modification" then
      let m := modify_diagram env query diagram_data memory sd1 language
      let mem2 := memory ++ "\nModification Request: " ++ query ++ "\nApplied: "
        ++ pyToStr m.summary
      let d : WfData := .conv "modify_diagram" m.diagram_data m.detail_descriptions
        m.summary mem2
      let sd2 := { sd1 with
        conversation_memory := mem2
        status := "completed"
        message := some "Diagram modified successfully!"
        data := some d }
      ({ status := "completed", message := "Diagram modified successfully!",
         session_id := some session_id, data := some d },
       pyAssocSet sessions session_id sd2,
       [.convTypeCall, .modifyCall])
    else
      let mem2 := add_information query memory
      let d : WfData := .conv "add_information" (.str diagram_data) (.obj [])
        (.str "Information has been added to the conversation memory for future reference.")
        mem2
      let sd2 := { sd1 with
        conversation_memory := mem2
        status := "completed"
        message := some "Information added to memory!"
        data := some d }
      ({ status := "completed", message := "Information added to memory!",
         session_id := some session_id, data := some d },
       pyAssocSet sessions session_id sd2,
       [.convTypeCall])

/-- The multi-line visualization-memory f-string of `visualize_process_only`
(`datetime.now().isoformat()` is modelled by `Env.now`). -/
def vis_memory_text (pd : ProcessDescription) (viz : VizResult) (now : String) : String :=
  pyStripStr ("\n            Visualization Session Memory:"
    ++ "\n            - Process Name: " ++ pd.name
    ++ "\n            - Process Steps: " ++ toString pd.steps.length ++ " steps"
    ++ "\n            - Process Goal: "
    ++ (match pd.goal with
        | some g => if g = "" then "Not specified" else g
        | none => "Not specified")
    ++ "\n            - Process Inputs: "
    ++ (if pd.inputs = [] then "None" else pyJoin ", " pd.inputs)
    ++ "\n            - Process Outputs: "
    ++ (if pd.outputs = [] then "None" else pyJoin ", " pd.outputs)
    ++ "\n            - Generated Diagram: " ++ viz.diagram_name
    ++ "\n            - Diagram Description: " ++ viz.diagram_description
    ++ "\n            - Number of Diagram Elements: "
    ++ toString viz.detail_descriptions.length
    ++ "\n            - Visualization Timestamp: " ++ now
    ++ "\n            ")

/-- Embeds `WorkflowOrchestrator.visualize_process_only`. -/
def visualize_process_only (env : Env) (sessions : Sessions) (session_id query : String)
    (file_texts file_type : Option String) : WfResult × Sessions × List AgentCall :=
  match pyAssocGet sessions session_id with
  | none => ({ status := "error", message := "Invalid session ID.",
               session_id := none, data := none }, sessions, [])
  | some sd0 =>
    let sd1 := { sd0 with
      query := some query
      original_file_texts := file_texts
      original_file_type := file_type
      status := "Processing Visualization"
      last_step_completed := none }
    match env.process_query query with
    | .error e =>
      let sd2 := { sd1 with
        status := "error"
        message := some ("An error occurred during visualization: " ++ e) }
      ({ status := "error", message := "An error occurred: " ++ e,
         session_id := some session_id, data := none },
       pyAssocSet sessions session_id sd2, [.contextCall])
    | .ok pd =>
      let sd2 := { sd1 with
        process_desc := some pd
        last_step_completed := some "context_analysis" }
      if pd.name = "" ∨ pd.steps = [] then
        let msg := "Could not understand the process to visualize. Please provide more details about the process steps."
        let sd3 := { sd2 with
          status := "Clarification Needed"
          data := some (.clarif msg) }
        ({ status := "clarification_needed",
           message := "More details needed to understand the process.",
           session_id := some session_id, data := some (.clarif msg) },
         pyAssocSet sessions session_id sd3, [.contextCall])
      else
        match env.generate_diagram pd.name pd.steps
            ("Goal: " ++ (pd.goal.getD "None") ++ ". Inputs: " ++ pyJoin ", " pd.inputs
              ++ ". Outputs: " ++ pyJoin ", " pd.outputs)
            (file_texts.getD "") with
        | .error e =>
          let sd3 := { sd2 with
            status := "error"
            message := some ("An error occurred during visualization: " ++ e) }
          ({ status := "error", message := "An error occurred: " ++ e,
             session_id := some session_id, data := none },
           pyAssocSet sessions session_id sd3, [.contextCall, .vizCall])
        | .ok viz =>
          let mem := vis_memory_text pd viz env.now
          let d : WfData := .vis pd.name pd.steps viz.diagram_data viz.diagram_name
            viz.diagram_description (.obj viz.detail_descriptions) mem
          let sd3 := { sd2 with
            diagram_data := some viz.diagram_data
            diagram_description := some viz.diagram_description
            detail_descriptions := .obj viz.detail_descriptions
            visualization_memory := mem
            last_step_completed := some "visualization_complete"
            status := "completed"
            message := some "Process visualization complete!"
            data := some d }
          ({ status := "completed", message := "Process visualization complete!",
             session_id := some session_id, data := some d },
           pyAssocSet sessions session_id sd3, [.contextCall, .vizCall])

/-- The multi-line improvement-memory f-string of
`_process_improvement_workflow`. -/
def improvement_memory_text (pd : ProcessDescription) (nBot nInfo : Nat)
    (ip : ImprovedProcess) (viz : VizResult) (now : String) : String :=
  pyStripStr ("\n            Process Improvement Session Memory:"
    ++ "\n            - Original Process: " ++ pd.name
    ++ "\n            - Original Steps: " ++ toString pd.steps.length ++ " steps"
    ++ "\n            - Bottlenecks Identified: " ++ toString nBot
    ++ "\n            - Verified Information Sources: " ++ toString nInfo
    ++ "\n            - Improvements Generated: " ++ toString ip.improvements.length
    ++ "\n            - Improved Process: " ++ ip.name
    ++ "\n            - Improved Steps: " ++ toString ip.improved_steps.length ++ " steps"
    ++ "\n            - Summary of Changes: " ++ ip.summary_of_changes
    ++ "\n            - Generated Diagram: " ++ viz.diagram_name
    ++ "\n            - Analysis Timestamp: " ++ now
    ++ "\n            ")

/-- The information-retrieval loop of `_process_improvement_workflow`: one
`retrieve_and_verify` per entry of `bottleneck_hypotheses[0].info_needed`,
each retrieved record appended both to the local list and to the session's
`verified_info`; an exception aborts the loop with the mutations made so
far. -/
def irLoop (env : Env) : List String → List VerifiedInformation → SessionData →
    List AgentCall →
    Except (String × SessionData × List AgentCall)
      (List VerifiedInformation × SessionData × List AgentCall)
  | [], acc, sd, tr => .ok (acc, sd, tr)
  | q :: rest, acc, sd, tr =>
    match env.retrieve_and_verify q with
    | .error e => .error (e, sd, tr ++ [.irCall])
    | .ok info =>
      irLoop env rest (acc ++ [info])
        { sd with verified_info := sd.verified_info ++ [info] } (tr ++ [.irCall])

/-- The error epilogue shared by the `except` blocks of the improvement
workflow. -/
def improvementError (sessions : Sessions) (session_id e : String) (sd : SessionData)
    (tr : List AgentCall) : WfResult × Sessions × List AgentCall :=
  ({ status := "error", message := "An error occurred: " ++ e,
     session_id := some session_id, data := none },
   pyAssocSet sessions session_id
     { sd with
       status := "error"
       message := some ("An error occurred during processing: " ++ e) }, tr)

/-- Embeds `WorkflowOrchestrator._process_improvement_workflow`. -/
def improvement_workflow (env : Env) (sessions : Sessions) (session_id query : String)
    (file_texts file_type : Option String) : WfResult × Sessions × List AgentCall :=
  match pyAssocGet sessions session_id with
  | none => ({ status := "error", message := "Invalid session ID.",
               session_id := none, data := none }, sessions, [])
  | some sd0 =>
    let sd1 := { sd0 with
      query := some query
      original_file_texts := file_texts
      original_file_type := file_type
      status := "Processing Query"
      last_step_completed := none }
    match env.process_query query with
    | .error e => improvementError sessions session_id e sd1 [.contextCall]
    | .ok pd =>
      let sd2 := { sd1 with
        process_desc := some pd
        last_step_completed := some "context_analysis" }
      if pd.name = "" ∨ pd.steps = [] then
        let msg := "Could not fully understand the process. Please provide more details about its steps, inputs, or outputs."
        let sd3 := { sd2 with
          status := "Clarification Needed"
          data := some (.clarif msg) }
        ({ status := "clarification_needed",
           message := "More details needed to understand the process.",
           session_id := some session_id, data := some (.clarif msg) },
         pyAssocSet sessions session_id sd3, [.contextCall])
      else
        match env.identify_bottlenecks pd none with
        | .error e => improvementError sessions session_id e sd2 [.contextCall, .bottleneckCall]
        | .ok bhs =>
          let sd3 := { sd2 with
            bottlenecks := bhs
            last_step_completed := some "bottleneck_hypotheses" }
          match bhs with
          | [] =>
            let msg := "Could not identify clear bottlenecks. Can you elaborate on the problems or specific areas of slowness/cost?"
            let sd4 := { sd3 with
              status := "Clarification Needed"
              data := some (.clarif msg) }
            ({ status := "clarification_needed",
               message := "No clear bottlenecks identified.",
               session_id := some session_id, data := some (.clarif msg) },
             pyAssocSet sessions session_id sd4, [.contextCall, .bottleneckCall])
          | b0 :: brest =>
            match irLoop env b0.info_needed [] sd3 [.contextCall, .bottleneckCall] with
            | .error (e, sd4, tr4) => improvementError sessions session_id e sd4 tr4
            | .ok (verified_info_list, sd4, tr4) =>
              let refineStep : Except (String × SessionData × List AgentCall)
                  (SessionData × List AgentCall) :=
                match verified_info_list with
                | [] => .ok (sd4, tr4)
                | v0 :: _ =>
                  match env.identify_bottlenecks pd (some v0) with
                  | .error e => .error (e, sd4, tr4 ++ [.bottleneckCall])
                  | .ok refined_bottlenecks =>
                    .ok ((if refined_bottlenecks = [] then sd4
                          else { sd4 with bottlenecks := refined_bottlenecks }),
                         tr4 ++ [.bottleneckCall])
              match refineStep with
              | .error (e, sd5, tr5) => improvementError sessions session_id e sd5 tr5
              | .ok (sd5a, tr5) =>
                let sd5 := { sd5a with
                  last_step_completed := some "bottleneck_analysis_complete" }
                match env.generate_solutions pd sd5.bottlenecks sd5.verified_info with
                | .error e =>
                  improvementError sessions session_id e sd5 (tr5 ++ [.solutionCall])
                | .ok improved_process =>
                  let sd6 := { sd5 with
                    improved_process := some improved_process
                    last_step_completed := some "solution_generation" }
                  match env.generate_diagram improved_process.name
                      improved_process.improved_steps
                      ("Improved process based on: " ++ improved_process.summary_of_changes)
                      (file_texts.getD "") with
                  | .error e =>
                    improvementError sessions session_id e sd6
                      (tr5 ++ [.solutionCall, .vizCall])
                  | .ok viz =>
                    let mem := improvement_memory_text pd sd6.bottlenecks.length
                      sd6.verified_info.length improved_process viz env.now
                    let d : WfData := .improved improved_process.summary_of_changes
                      improved_process.improved_steps viz.diagram_data viz.diagram_name
                      viz.diagram_description (.obj viz.detail_descriptions) mem
                    let sd7 := { sd6 with
                      diagram_data := some viz.diagram_data
                      diagram_description := some viz.diagram_description
                      detail_descriptions := .obj viz.detail_descriptions
                      visualization_memory := mem
                      last_step_completed := some "visualization_complete"
                      status := "completed"
                      message := some "Process analysis and improvement complete!"
                      data := some d }
                    ({ status := "completed",
                       message := "Process analysis and improvement complete!",
                       session_id := some session_id, data := some d },
                     pyAssocSet sessions session_id sd7,
                     tr5 ++ [.solutionCall, .vizCall])

/-- Embeds `WorkflowOrchestrator.process_user_query`: intent classification, then
dispatch to the matching pipeline. -/
def process_user_query (env : Env) (sessions : Sessions) (session_id query : String)
    (file_texts file_type : Option String) (diagram_data memory : String) :
    WfResult × Sessions × List AgentCall :=
  let intent := determine_user_intent env query
  if intent = "visualize" then
    let (r, ss, tr) := visualize_process_only env sessions session_id query
      file_texts file_type
    (r, ss, .intentCall :: tr)
  else if intent = "conversation" then
    let (r, ss, tr) := handle_conversation env sessions session_id query
      diagram_data memory
    (r, ss, .intentCall :: tr)
  else
    let (r, ss, tr) := improvement_workflow env sessions session_id query
      file_texts file_type
    (r, ss, .intentCall :: tr)

/-- Embeds `WorkflowOrchestrator.resume_session_with_clarification`. The
`session_data["query"] += ...` line raises `TypeError` when the stored query
is `None` (string concatenation with `None`); that raise is modelled by the
`.error` case. -/
def resume_session_with_clarification (env : Env) (sessions : Sessions)
    (session_id clarification_response : String) :
    Except String (WfResult × Sessions × List AgentCall) :=
  match pyAssocGet sessions session_id with
  | none => .ok ({ status := "error", message := "Invalid session ID.",
                   session_id := none, data := none }, sessions, [])
  | some sd =>
    if sd.status ≠ "Clarification Needed" then
      .ok ({ status := "error", message := "Session is not awaiting clarification.",
             session_id := none, data := none }, sessions, [])
    else
      match sd.query with
      | none => .error "TypeError: unsupported operand type for +="
      | some q =>
        let newq := q ++ "

User Clarification: " ++ clarification_response
        let sessions2 := pyAssocSet sessions session_id { sd with query := some newq }
        .ok (process_user_query env sessions2 session_id newq
          sd.original_file_texts sd.original_file_type "" "")

/-- Embeds `WorkflowOrchestrator.get_session_status`. The `"completed"` branch
dereferences `session_data["improved_process"].summary_of_changes` and
`session_data["message"]` unconditionally; a missing `message` key is a
`KeyError` and a `None` improved process is an `AttributeError`, both
modelled by `.error` since this method has no `try`. -/
def get_session_status (sessions : Sessions) (session_id : String) :
    Except String WfResult :=
  match pyAssocGet sessions session_id with
  | none => .ok { status := "error", message := "Session not found.",
                  session_id := none, data := none }
  | some sd =>
    if sd.status = "completed" then
      match sd.message with
      | none => .error "KeyError: message"
      | some msg =>
        match sd.improved_process with
        | none =>
          .error "AttributeError: NoneType object has no attribute summary_of_changes"
        | some ip =>
          .ok { status := "completed", message := msg, session_id := none,
                data := some (.statusCompleted ip.summary_of_changes ip.improved_steps
                  sd.diagram_data sd.diagram_description sd.detail_descriptions) }
    else if sd.status = "Clarification Needed" then
      match sd.data with
      | some (.clarif m) =>
        .ok { status := "clarification_needed", message := m, session_id := none,
              data := some (.clarif m) }
      | _ => .error "KeyError: data"
    else
      match sd.message with
      | none => .error "KeyError: message"
      | some m =>
        .ok { status := sd.status, message := m, session_id := none,
              data := some (.statusOther sd.last_step_completed) }

/-- Embeds `WorkflowOrchestrator.end_session`. -/
def end_session (sessions : Sessions) (session_id : String) : WfResult × Sessions :=
  match pyAssocGet sessions session_id with
  | some _ => ({ status := "success", message := "Session ended.",
                 session_id := none, data := none }, pyAssocDel sessions session_id)
  | none => ({ status := "error", message := "Session not found.",
               session_id := none, data := none }, sessions)

/-- The key of the `optimization_detail` dict comprehension in
`handle_optimization` (orchestrator.py lines 317-322):
`" ".join(imp.description.split()[:8]) + ("..." if len > 8 else "")`. -/
def descKey (description : String) : String :=
  let ws := pyWords description
  pyJoin " " (ws.take 8) ++ (if ws.length > 8 then "..." else "")

/-- The `optimization_detail` dict comprehension itself: keys are truncated
descriptions, values the full description with expected impact; a Python
dict comprehension keeps one entry per distinct key (the last value wins). -/
def optimization_detail (improvements : List ProposedImprovement) :
    List (String × String) :=
  improvements.foldl
    (fun acc imp => pyAssocSet acc (descKey imp.description)
      (imp.description ++ " (Expected Impact: " ++ imp.expected_impact ++ ")"))
    []

/-! ## `agents/information_retrieval_agent.py` -/

/-- The IR agent\x27s collaborator boundary: `simLLM` is the completion call
of `_simulate_google_search` (applied to the query and result count that are
interpolated into its prompt), `verifyLLM` the completion call of
`verify_and_summarize_info` (applied to the query and the rendered results
text). The Google Search API is not configured in the verified deployment
(`GOOGLE_API_KEY` unset), so `search_google` always takes the simulation
branch. -/
structure IREnv where
  simLLM : String → Nat → Except String String
  verifyLLM : String → String → Except String String

/-- Embeds `InformationRetrievalAgent._simulate_google_search`: one completion
call, regex `\[.*\]` slice, `json.loads`, then `results[:num]`; every
failure inside the `try` (no completion, no bracket match, an unparsable or
non-list payload) yields `[]`. -/
def simulate_google_search (env : IREnv) (query : String) (num : Nat) : List PyJson :=
  match env.simLLM query num with
  | .error _ => []
  | .ok response =>
    match bracketSlice response.data with
    | none => []
    | some m =>
      match json_loads m with
      | some (.arr results) => results.take num
      | _ => []

/-- Embeds `search_google` with the Search API unconfigured. -/
def search_google (env : IREnv) (query : String) (num : Nat) : List PyJson :=
  simulate_google_search env query num

/-- Python `str(x)` rendering of the title/snippet/url values interpolated
into the results text (claims never depend on this rendering). -/
def resultsTextEntry (i : Nat) (r : List (String × PyJson)) : String :=
  "Result " ++ toString i ++ ":\nTitle: "
    ++ pyToStr ((pyLookup r "title").getD (.str "N/A"))
    ++ "\nSnippet: " ++ pyToStr ((pyLookup r "snippet").getD (.str "N/A"))
    ++ "\nURL: " ++ pyToStr ((pyLookup r "url").getD (.str "N/A")) ++ "\n\n"

/-- The `results_text`/`sources` accumulation loop of
`verify_and_summarize_info`, which runs before the `try` block:
`result.get(...)` raises `AttributeError` on the first non-dict entry. -/
def buildResults : List PyJson → Nat →
    Except String (String × List PyJson)
  | [], _ => .ok ("", [])
  | r :: rest, i =>
    match r with
    | .obj kvs =>
      match buildResults rest (i + 1) with
      | .error e => .error e
      | .ok (txt, srcs) =>
        .ok (resultsTextEntry i kvs ++ txt,
             ((pyLookup kvs "url").getD (.str ("Result " ++ toString i))) :: srcs)
    | _ => .error "AttributeError: object has no attribute get"

/-- Pydantic validation of a `VerifiedInformation` construction: `sources`
must be a list of strings and the three text fields strings, else a
`ValidationError` is raised. -/
def mkVerifiedInformation (query : String) (sources : List PyJson)
    (summary confidence relevance : PyJson) : Except String VerifiedInformation :=
  match collectStrs sources, summary, confidence, relevance with
  | some srcs, .str su, .str co, .str re =>
    .ok { query := query, sources := srcs, summary := su, confidence := co,
          relevance := re }
  | _, _, _, _ => .error "ValidationError"
where
  collectStrs : List PyJson → Option (List String)
    | [] => some []
    | .str s :: t => (collectStrs t).map (fun l => s :: l)
    | _ :: _ => none

/-- Embeds `InformationRetrievalAgent._create_fallback_info`. The sources list is
rebuilt with the same `result.get(\x27url\x27, ...)` values; a non-string url
value still fails pydantic validation, and since the fallback runs inside an
`except` handler that failure propagates to the caller. -/
def create_fallback_info (query : String) (search_results : List PyJson)
    (sources : List PyJson) : Except String VerifiedInformation :=
  mkVerifiedInformation query sources
    (.str ("Found " ++ toString search_results.length ++ " search results for \x27"
      ++ query
      ++ "\x27. Information available but requires manual review for specific application."))
    (.str "Medium") (.str "Indirect")

/-- Embeds `InformationRetrievalAgent.verify_and_summarize_info`. An empty result
list returns the exact sentinel record; otherwise the sources loop runs
outside any `try` (and can raise), after which every failure inside the
`try` (completion exception, no brace match, unparsable or non-dict payload,
pydantic validation failure) lands in `_create_fallback_info`. -/
def verify_and_summarize_info (env : IREnv) (query : String)
    (search_results : List PyJson) : Except String VerifiedInformation :=
  match search_results with
  | [] =>
    .ok { query := query, sources := [],
          summary := "No relevant information found for this query.",
          confidence := "Low", relevance := "Indirect" }
  | _ =>
    match buildResults search_results 1 with
    | .error e => .error e
    | .ok (results_text, sources) =>
      match env.verifyLLM query results_text with
      | .error _ => create_fallback_info query search_results sources
      | .ok response =>
        match braceSlice response.data with
        | none => create_fallback_info query search_results sources
        | some m =>
          match json_loads m with
          | some (.obj analysis) =>
            match mkVerifiedInformation query sources
                ((pyLookup analysis "summary").getD (.str ""))
                ((pyLookup analysis "confidence").getD (.str "Medium"))
                ((pyLookup analysis "relevance").getD (.str "Indirect")) with
            | .ok vi => .ok vi
            | .error _ => create_fallback_info query search_results sources
          | _ => create_fallback_info query search_results sources

/-- Embeds `InformationRetrievalAgent.retrieve_and_verify` (no `try` of its own). -/
def retrieve_and_verify (env : IREnv) (query : String) :
    Except String VerifiedInformation :=
  verify_and_summarize_info env query (search_google env query 5)

/-- A JSON string atom. -/
def isStrVal : PyJson → Bool
  | .str _ => true
  | _ => false

/-- A JSON object all of whose values are string atoms — the shape of a
well-formed search-result entry. -/
def isStrObj : PyJson → Bool
  | .obj kvs => kvs.all (fun kv => isStrVal kv.2)
  | _ => false

/-- The fold step of `optimization_detail`. -/
def odStep (acc : List (String × String)) (imp : ProposedImprovement) :
    List (String × String) :=
  pyAssocSet acc (descKey imp.description)
    (imp.description ++ " (Expected Impact: " ++ imp.expected_impact ++ ")")

/-! ## Concrete fixtures for witnesses and counterexamples -/

/-- A complete process description. -/
def pd0 : ProcessDescription :=
  { name := "P", steps := ["s1"], inputs := [], outputs := [], pain_points := [],
    metrics := [], goal := none }

/-- A description failing the clarification gate (empty name and steps). -/
def pdBad : ProcessDescription :=
  { name := "", steps := [], inputs := [], outputs := [], pain_points := [],
    metrics := [], goal := none }

def viz0 : VizResult :=
  { diagram_data := "<bpmn/>", diagram_name := "D", diagram_description := "desc",
    detail_descriptions := [] }

def b0 : BottleneckHypothesis :=
  { location := "loc", reason_hypothesis := "slow", info_needed := ["need1"] }

def b1 : BottleneckHypothesis :=
  { location := "loc2", reason_hypothesis := "cost", info_needed := [] }

def vi0 : VerifiedInformation :=
  { query := "need1", sources := [], summary := "sum", confidence := "High",
    relevance := "Direct" }

def ip0 : ImprovedProcess :=
  { name := "IP", original_process := pd0, improvements := [], improved_steps := ["s2"],
    summary_of_changes := "changed" }

/-- A freshly initialized session record (the dict of `start_new_session`). -/
def sd0 : SessionData :=
  { user_id := "u", query := none, original_file_texts := none,
    original_file_type := none, process_desc := none, bottlenecks := [],
    verified_info := [], improved_process := none, diagram_data := none,
    diagram_description := none, detail_descriptions := .arr [],
    visualization_memory := "", conversation_memory := "",
    status := "Initialized", last_step_completed := none,
    message := none, data := none }

/-- A session awaiting clarification. -/
def sdClar : SessionData :=
  { sd0 with status := "Clarification Needed", query := some "q0" }

/-- Collaborators for the C1 witness: context extraction yields the
incomplete description. -/
def envC1 : Env :=
  { intentLLM := fun _ => .ok "improve", convTypeLLM := fun _ => .ok "question",
    answerLLM := fun _ _ _ _ _ => .ok "ANS", modifyLLM := fun _ _ _ _ _ => .error "boom",
    process_query := fun _ => .ok pdBad,
    identify_bottlenecks := fun _ _ => .ok [],
    retrieve_and_verify := fun _ => .error "e",
    generate_solutions := fun _ _ _ => .error "e",
    generate_diagram := fun _ _ _ _ => .error "e",
    detect_language := fun _ => "en", now := "T" }

/-- Collaborators for the C2 amended witness and C4: complete description,
diagram generation succeeds, intent classifies as improve. -/
def envC2 : Env :=
  { envC1 with
    process_query := fun _ => .ok pd0
    generate_diagram := fun _ _ _ _ => .ok viz0 }

/-- Collaborators for the C2 counterexample: the re-classified intent of the
resumed query is "visualize", so the resumed run executes the visualize-only
pipeline while the improvement pipeline on the same input stops for
bottleneck clarification. -/
def envC2c : Env :=
  { envC2 with intentLLM := fun _ => .ok "visualize" }

/-- Collaborators for C8: a first bottleneck pass with one hypothesis, a
successful retrieval, and a non-empty refinement. -/
def envC8 : Env :=
  { envC2 with
    identify_bottlenecks := fun _ ovi =>
      match ovi with
      | none => .ok [b0]
      | some _ => .ok [b1]
    retrieve_and_verify := fun _ => .ok vi0 }

/-- Collaborators for the C8 counterexample: the refinement pass returns the
empty list. -/
def envC8c : Env :=
  { envC8 with
    identify_bottlenecks := fun _ ovi =>
      match ovi with
      | none => .ok [b0]
      | some _ => .ok [] }

/-- An eight-word and a nine-word description sharing their first eight
words. -/
def impA8 : ProposedImprovement :=
  { step_number := none, description := "w w w w w w w w", expected_impact := "i1",
    tools_or_tech := [], actors_involved := [] }

def impA9 : ProposedImprovement :=
  { step_number := none, description := "w w w w w w w w w", expected_impact := "i2",
    tools_or_tech := [], actors_involved := [] }

/-! ## Infrastructure lemmas for the repair proofs -/

theorem skipWs_cons_not {c : Char} (l : List Char) (hc : jsonWs c = false) :
    skipWs (c :: l) = c :: l := by
  simp [skipWs, List.dropWhile_cons, hc]

theorem pyStartsWith_append_self (l r : List Char) : pyStartsWith (l ++ r) l = true :=
  List.isPrefixOf_iff_prefix.mpr (List.prefix_append l r)

theorem pyStartsWith_ne_head {c d : Char} (l m : List Char) (h : ¬ (d = c)) :
    pyStartsWith (c :: l) (d :: m) = false := by
  simp [pyStartsWith, List.isPrefixOf]
  intro heq
  exact absurd heq h

theorem pyStrip_eq_self {l : List Char} {c d : Char} (h1 : l.head? = some c)
    (hc : pyWs c = false) (h2 : l.getLast? = some d) (hd : pyWs d = false) :
    pyStrip l = l := by
  unfold pyStrip
  have hfront : l.dropWhile pyWs = l := by
    cases l with
    | nil => rfl
    | cons a t =>
      have ha : a = c := by simpa using h1
      rw [List.dropWhile_cons_of_neg (by simp [ha, hc])]
  rw [hfront]
  have hback : l.reverse.dropWhile pyWs = l.reverse := by
    cases hrev : l.reverse with
    | nil => rfl
    | cons a t =>
      have ha : a = d := by
        have hh := List.head?_reverse l
        rw [hrev, h2] at hh
        simpa using hh
      rw [List.dropWhile_cons_of_neg (by simp [ha, hd])]
  rw [hback, List.reverse_reverse]

/-- A successful `findIdx?`-based first index decomposes the list. -/
theorem firstIdxOf_spec {c : Char} {l : List Char} {i : Nat}
    (h : firstIdxOf c l = some i) : ∃ pre post, l = pre ++ c :: post ∧ pre.length = i := by
  induction l generalizing i with
  | nil => simp [firstIdxOf] at h
  | cons a t ih =>
    rw [firstIdxOf, List.findIdx?_cons] at h
    by_cases hac : a = c
    · simp [hac] at h
      exact ⟨[], t, by simp [hac], by simp [← h]⟩
    · simp [hac] at h
      obtain ⟨j, hj, rfl⟩ := h
      obtain ⟨pre, post, rfl, hl⟩ := ih hj
      exact ⟨a :: pre, post, rfl, by simp [hl]⟩

/-- A successful last-index search decomposes the list. -/
theorem lastIdxOf_spec {c : Char} {l : List Char} {j : Nat}
    (h : lastIdxOf c l = some j) : ∃ pre post, l = pre ++ c :: post ∧ pre.length = j := by
  unfold lastIdxOf at h
  cases hk : (l.reverse).findIdx? (· = c) with
  | none => rw [hk] at h; simp at h
  | some k =>
    rw [hk] at h
    simp at h
    obtain ⟨pre, post, hrev, hlen⟩ := firstIdxOf_spec (c := c) (l := l.reverse) (i := k)
      (by rw [firstIdxOf, hk])
    refine ⟨post.reverse, pre.reverse, ?_, ?_⟩
    · have := congrArg List.reverse hrev
      simpa using this
    · have hl : l.length = pre.length + post.length + 1 := by
        have := congrArg List.length hrev
        simp at this
        omega
      simp
      omega

/-! digit machinery -/

theorem digitChar_isDigit {m : Nat} (h : m < 10) : (Char.ofNat (48 + m)).isDigit = true := by
  interval_cases m <;> decide

theorem digitChar_toNat {m : Nat} (h : m < 10) : (Char.ofNat (48 + m)).toNat = 48 + m := by
  interval_cases m <;> decide

theorem digitChar_ne_zero {m : Nat} (h1 : m < 10) (h2 : m ≠ 0) : Char.ofNat (48 + m) ≠ '0' := by
  interval_cases m <;> simp_all <;> decide

theorem natDigs_ne_nil (n : Nat) : natDigs n ≠ [] := by
  unfold natDigs
  split <;> simp

theorem natDigs_small {n : Nat} (h : n < 10) : natDigs n = [Char.ofNat (48 + n)] := by
  unfold natDigs
  simp [h]

theorem natDigs_large {n : Nat} (h : ¬ n < 10) :
    natDigs n = natDigs (n / 10) ++ [Char.ofNat (48 + n % 10)] := by
  conv_lhs => unfold natDigs
  simp [h]

theorem natDigs_all_digit (n : Nat) : ∀ c ∈ natDigs n, c.isDigit = true := by
  induction n using Nat.strong_induction_on with
  | _ n ih =>
    by_cases h : n < 10
    · rw [natDigs_small h]
      intro c hc
      simp at hc
      subst hc
      exact digitChar_isDigit h
    · rw [natDigs_large h]
      intro c hc
      simp at hc
      rcases hc with hc | hc
      · exact ih (n / 10) (Nat.div_lt_self (by omega) (by omega)) c hc
      · subst hc
        exact digitChar_isDigit (Nat.mod_lt n (by omega))

theorem digsVal_concat (l : List Char) (c : Char) :
    digsVal (l ++ [c]) = 10 * digsVal l + (c.toNat - 48) := by
  simp [digsVal, List.foldl_append]

theorem digsVal_natDigs (n : Nat) : digsVal (natDigs n) = n := by
  induction n using Nat.strong_induction_on with
  | _ n ih =>
    by_cases h : n < 10
    · rw [natDigs_small h]
      simp [digsVal, digitChar_toNat h]
    · rw [natDigs_large h, digsVal_concat,
        ih (n / 10) (Nat.div_lt_self (by omega) (by omega)),
        digitChar_toNat (Nat.mod_lt n (by omega))]
      omega

theorem natDigs_headI_ne_zero {n : Nat} (h : 10 ≤ n) : (natDigs n).headI ≠ '0' := by
  induction n using Nat.strong_induction_on with
  | _ n ih =>
    rw [natDigs_large (by omega)]
    obtain ⟨c, t, hct⟩ : ∃ c t, natDigs (n / 10) = c :: t := by
      cases hh : natDigs (n / 10) with
      | nil => exact absurd hh (natDigs_ne_nil _)
      | cons c t => exact ⟨c, t, rfl⟩
    rw [hct]
    simp only [List.cons_append, List.headI]
    by_cases h10 : n / 10 < 10
    · have hge : 1 ≤ n / 10 := Nat.one_le_div_iff (by omega) |>.mpr (by omega)
      rw [natDigs_small h10] at hct
      have : c = Char.ofNat (48 + n / 10) := by
        have := List.cons.injEq c t (Char.ofNat (48 + n / 10)) [] ▸ hct.symm
        simp at this
        exact this.1
      subst this
      exact digitChar_ne_zero h10 (by omega)
    · have := ih (n / 10) (Nat.div_lt_self (by omega) (by omega)) (by omega)
      rw [hct] at this
      simpa using this

/-- Separator characters are not digit-ish. -/
theorem sepOk_head_not_digit {l : List Char} (h : sepOk l = true) :
    (∀ c t, l = c :: t → c.isDigit = false ∧ c ≠ '.' ∧ c ≠ 'e' ∧ c ≠ 'E') := by
  intro c t hl
  subst hl
  simp [sepOk] at h
  rcases h with (h | h) | h <;> subst h <;> exact ⟨by decide, by decide, by decide, by decide⟩

theorem takeWhile_digits_append (l rest : List Char) (hl : ∀ c ∈ l, c.isDigit = true)
    (hr : sepOk rest = true) :
    (l ++ rest).takeWhile Char.isDigit = l ∧ (l ++ rest).dropWhile Char.isDigit = rest := by
  constructor
  · rw [List.takeWhile_append_of_pos hl]
    cases rest with
    | nil => simp
    | cons c t =>
      rw [List.takeWhile_cons_of_neg]
      · simp
      · simp [(sepOk_head_not_digit hr c t rfl).1]
  · rw [List.dropWhile_append_of_pos hl]
    cases rest with
    | nil => simp
    | cons c t =>
      rw [List.dropWhile_cons_of_neg]
      simp [(sepOk_head_not_digit hr c t rfl).1]

theorem digit_ne_dash {c : Char} (h : c.isDigit = true) : (c = '-') = False := by
  simp only [eq_iff_iff, iff_false]
  intro heq
  subst heq
  simp [Char.isDigit] at h

theorem natDigs_no_leading_zero (m : Nat) :
    (decide ((natDigs m).length > 1) && decide ((natDigs m).headI = '0')) = false := by
  by_cases h : m < 10
  · rw [natDigs_small h]
    simp
  · have := natDigs_headI_ne_zero (n := m) (by omega)
    simp [this]

theorem bad_false_of_sepOk {rest : List Char} (hr : sepOk rest = true) :
    (rest.head? = some '.' || rest.head? = some 'e' || rest.head? = some 'E') = false := by
  cases rest with
  | nil => rfl
  | cons c t =>
    have := sepOk_head_not_digit hr c t rfl
    simp [this.2.1, this.2.2.1, this.2.2.2]

/-- The parser `parse_number` inverts `serInt`. -/
theorem parse_number_serInt (n : Int) {rest : List Char} (hr : sepOk rest = true) :
    parse_number (serInt n ++ rest) = some (.int n, rest) := by
  have hdigs := natDigs_all_digit n.natAbs
  have htd := takeWhile_digits_append (natDigs n.natAbs) rest hdigs hr
  have hne := natDigs_ne_nil n.natAbs
  by_cases hn : n < 0
  · have hserint : serInt n = '-' :: natDigs n.natAbs := by simp [serInt, hn]
    rw [hserint]
    unfold parse_number
    simp only [List.cons_append, List.head?_cons, List.tail_cons, decide_eq_true_eq]
    rw [if_pos trivial]
    rw [htd.1, htd.2]
    rw [if_neg (by simp [List.isEmpty_eq_true, hne])]
    rw [if_neg (by simp [natDigs_no_leading_zero])]
    rw [if_neg (by simp [bad_false_of_sepOk hr])]
    rw [if_pos trivial, digsVal_natDigs]
    have habs : -(n.natAbs : Int) = n := by omega
    rw [habs]
  · have hserint : serInt n = natDigs n.natAbs := by simp [serInt, hn]
    rw [hserint]
    obtain ⟨c, t, hct⟩ : ∃ c t, natDigs n.natAbs = c :: t := by
      cases hh : natDigs n.natAbs with
      | nil => exact absurd hh (natDigs_ne_nil _)
      | cons c t => exact ⟨c, t, rfl⟩
    have hcdig : c.isDigit = true := hdigs c (by rw [hct]; simp)
    have hhead : (natDigs n.natAbs ++ rest).head? = some c := by rw [hct]; simp
    have hneg : (decide ((natDigs n.natAbs ++ rest).head? = some '-')) = false := by
      rw [hhead]
      simp [digit_ne_dash hcdig]
    unfold parse_number
    simp only [hneg, Bool.false_eq_true, if_false, htd.1, htd.2, natDigs_no_leading_zero,
      bad_false_of_sepOk hr, digsVal_natDigs]
    have habs : (n.natAbs : Int) = n := Int.natAbs_of_nonneg (by omega)
    simp [List.isEmpty_eq_true, hne, habs]

/-- Safe characters are not special for the string scanner. -/
theorem safeChar_facts {c : Char} (h : safeChar c = true) :
    (c = dquote) = False ∧ (c = bslash) = False ∧ (c.toNat < 32) = False ∧
      (c = squote) = False ∧ (c = '{') = False ∧ (c = '}') = False ∧
      (c = '[') = False ∧ (c = ']') = False := by
  simp [safeChar] at h
  obtain ⟨⟨⟨⟨⟨⟨⟨h1, h2⟩, h3⟩, h4⟩, h5⟩, h6⟩, h7⟩, h8⟩ := h
  refine ⟨by simp [h2], by simp [h3], by simp only [eq_iff_iff, iff_false]; omega,
    by simp [h1], by simp [h4], by simp [h5], by simp [h6], by simp [h7]⟩

/-- The string scanner inverts plain serialization of safe characters. -/
theorem parse_string_body_safe {s : List Char} (hs : ∀ c ∈ s, safeChar c = true)
    (rest : List Char) :
    parse_string_body (s ++ dquote :: rest) = some (s, rest) := by
  induction s with
  | nil =>
    unfold parse_string_body
    simp
  | cons c t ih =>
    have hc := safeChar_facts (hs c (by simp))
    unfold parse_string_body
    simp only [List.cons_append]
    rw [if_neg (by simp [hc.1]), if_neg (by simp [hc.2.1]), if_neg (by simp [hc.2.2.1])]
    rw [ih (fun d hd => hs d (by simp [hd]))]
    rfl

/-! head-character facts for serializations -/

theorem headOk_spec {c : Char} (h : headOk c = true) :
    jsonWs c = false ∧ reWs c = false ∧ (c = ']') = False ∧ (c = '}') = False ∧
      (c = ',') = False ∧ (c = ':') = False := by
  simp [headOk, jsonWs] at h
  obtain ⟨⟨⟨⟨⟨⟨⟨h1, h2⟩, h3⟩, h4⟩, h5⟩, h6⟩, h7⟩, h8⟩ := h
  refine ⟨?_, ?_, by simp [h5], by simp [h6], by simp [h7], by simp [h8]⟩
  · simp [jsonWs, h1, h2, h3, h4]
  · simp [reWs, h1, h2, h3, h4]

theorem headOk_of_digit {c : Char} (h : c.isDigit = true) : headOk c = true := by
  simp [headOk, jsonWs]
  refine ⟨⟨⟨⟨⟨⟨⟨?_, ?_⟩, ?_⟩, ?_⟩, ?_⟩, ?_⟩, ?_⟩, ?_⟩ <;>
    (intro heq; subst heq; exact absurd h (by decide))

theorem serInt_head (n : Int) :
    ∃ c t, serInt n = c :: t ∧ headOk c = true := by
  by_cases hn : n < 0
  · exact ⟨'-', natDigs n.natAbs, by simp [serInt, hn], by decide⟩
  · obtain ⟨c, t, hct⟩ : ∃ c t, natDigs n.natAbs = c :: t := by
      cases hh : natDigs n.natAbs with
      | nil => exact absurd hh (natDigs_ne_nil _)
      | cons c t => exact ⟨c, t, rfl⟩
    refine ⟨c, t, by simp [serInt, hn, hct], ?_⟩
    exact headOk_of_digit (natDigs_all_digit n.natAbs c (by rw [hct]; simp))

theorem serF_head {q : Char} (hq : q = squote ∨ q = dquote) (b : Bool) (x : PyJson) :
    ∃ c t, serF q b x = c :: t ∧ headOk c = true := by
  cases x with
  | null => exact ⟨'n', "ull".data, rfl, by decide⟩
  | bool bb => cases bb with
    | true => exact ⟨'t', "rue".data, rfl, by decide⟩
    | false => exact ⟨'f', "alse".data, rfl, by decide⟩
  | int n =>
    obtain ⟨c, t, h1, h2⟩ := serInt_head n
    exact ⟨c, t, h1, h2⟩
  | str s =>
    refine ⟨q, s.data ++ [q], by simp [serF], ?_⟩
    rcases hq with h | h <;> subst h <;> decide
  | arr xs =>
    exact ⟨'[', serFElems q b xs ++ (if xs.isEmpty || !b then [] else [',']) ++ [']'],
      rfl, by decide⟩
  | obj kvs =>
    exact ⟨'{', serFKvs q b kvs ++ (if kvs.isEmpty || !b then [] else [',']) ++ ['}'],
      rfl, by decide⟩

theorem serFElems_head {q : Char} (hq : q = squote ∨ q = dquote) (b : Bool)
    {xs : List PyJson} (hne : xs ≠ []) :
    ∃ c t, serFElems q b xs = c :: t ∧ headOk c = true := by
  cases xs with
  | nil => exact absurd rfl hne
  | cons x t =>
    obtain ⟨c, u, h1, h2⟩ := serF_head hq b x
    cases t with
    | nil => exact ⟨c, u, by simp [serFElems, h1], h2⟩
    | cons y t2 =>
      refine ⟨c, u ++ ',' :: serFElems q b (y :: t2), ?_, h2⟩
      show serF q b x ++ ',' :: serFElems q b (y :: t2) = _
      rw [h1]
      simp

theorem serFKvs_cons (q : Char) (b : Bool) {kvs : List (String × PyJson)} (hne : kvs ≠ []) :
    ∃ t, serFKvs q b kvs = q :: t := by
  cases kvs with
  | nil => exact absurd rfl hne
  | cons kv t =>
    obtain ⟨k, v⟩ := kv
    cases t with
    | nil => exact ⟨k.data ++ q :: ':' :: serF q b v, rfl⟩
    | cons kv2 t2 => exact ⟨k.data ++ q :: ':' :: serF q b v ++ ',' :: serFKvs q b (kv2 :: t2), rfl⟩

/-! parse_value on serialized atoms -/

/-- One-step reduction of `parse_value` on a non-whitespace-headed input. -/
theorem parse_value_cons (f : Nat) (c : Char) (t : List Char) (hc : jsonWs c = false) :
    parse_value (f + 1) (c :: t) =
      (if c = '{' then
        match skipWs t with
        | [] => none
        | d :: r =>
          if d = '}' then some (.obj [], r)
          else (parse_members f (d :: r)).map (fun p => (.obj (dedupKvs p.1), p.2))
      else if c = '[' then
        match skipWs t with
        | [] => none
        | d :: r =>
          if d = ']' then some (.arr [], r)
          else (parse_elems f (d :: r)).map (fun p => (.arr p.1, p.2))
      else if c = dquote then
        (parse_string_body t).map (fun p => (.str ⟨p.1⟩, p.2))
      else if pyStartsWith (c :: t) "true".data then some (.bool true, t.drop 3)
      else if pyStartsWith (c :: t) "false".data then some (.bool false, t.drop 4)
      else if pyStartsWith (c :: t) "null".data then some (.null, t.drop 3)
      else parse_number (c :: t)) := by
  unfold parse_value
  rw [skipWs_cons_not _ hc]

theorem string_true_data : "true".data = 't' :: "rue".data := rfl
theorem string_false_data : "false".data = 'f' :: "alse".data := rfl
theorem string_null_data : "null".data = 'n' :: "ull".data := rfl

theorem parse_value_null (f : Nat) (rest : List Char) :
    parse_value (f + 1) ("null".data ++ rest) = some (.null, rest) := by
  rw [show "null".data ++ rest = 'n' :: ("ull".data ++ rest) from rfl]
  rw [parse_value_cons _ _ _ (by decide)]
  rw [if_neg (by decide), if_neg (by decide), if_neg (by decide)]
  rw [pyStartsWith_ne_head _ _ (by decide), pyStartsWith_ne_head _ _ (by decide)]
  rw [show pyStartsWith ('n' :: ("ull".data ++ rest)) "null".data = true from
    pyStartsWith_append_self "null".data rest]
  simp

theorem parse_value_true (f : Nat) (rest : List Char) :
    parse_value (f + 1) ("true".data ++ rest) = some (.bool true, rest) := by
  rw [show "true".data ++ rest = 't' :: ("rue".data ++ rest) from rfl]
  rw [parse_value_cons _ _ _ (by decide)]
  rw [if_neg (by decide), if_neg (by decide), if_neg (by decide)]
  rw [show pyStartsWith ('t' :: ("rue".data ++ rest)) "true".data = true from
    pyStartsWith_append_self "true".data rest]
  simp

theorem parse_value_false (f : Nat) (rest : List Char) :
    parse_value (f + 1) ("false".data ++ rest) = some (.bool false, rest) := by
  rw [show "false".data ++ rest = 'f' :: ("alse".data ++ rest) from rfl]
  rw [parse_value_cons _ _ _ (by decide)]
  rw [if_neg (by decide), if_neg (by decide), if_neg (by decide)]
  rw [pyStartsWith_ne_head _ _ (by decide)]
  rw [show pyStartsWith ('f' :: ("alse".data ++ rest)) "false".data = true from
    pyStartsWith_append_self "false".data rest]
  simp

theorem parse_value_str {s : String} (hs : ∀ c ∈ s.data, safeChar c = true) (f : Nat)
    (rest : List Char) :
    parse_value (f + 1) (serF dquote false (.str s) ++ rest) = some (.str s, rest) := by
  rw [show serF dquote false (.str s) ++ rest = dquote :: (s.data ++ dquote :: rest) from by
    simp [serF]]
  rw [parse_value_cons _ _ _ (by decide)]
  rw [if_neg (by decide), if_neg (by decide), if_pos rfl]
  rw [parse_string_body_safe hs rest]
  rfl

theorem not_lit_heads {c : Char} (h : c = '-' ∨ c.isDigit = true) :
    (c = '{') = False ∧ (c = '[') = False ∧ (c = dquote) = False ∧
      pyStartsWith (c :: u) "true".data = false ∧
      pyStartsWith (c :: u) "false".data = false ∧
      pyStartsWith (c :: u) "null".data = false := by
  rcases h with h | h
  · subst h
    refine ⟨by decide, by decide, by decide, ?_, ?_, ?_⟩
    · rw [string_true_data]; exact pyStartsWith_ne_head _ _ (by decide)
    · rw [string_false_data]; exact pyStartsWith_ne_head _ _ (by decide)
    · rw [string_null_data]; exact pyStartsWith_ne_head _ _ (by decide)
  · refine ⟨?_, ?_, ?_, ?_, ?_, ?_⟩
    · simp only [eq_iff_iff, iff_false]; intro heq; subst heq; exact absurd h (by decide)
    · simp only [eq_iff_iff, iff_false]; intro heq; subst heq; exact absurd h (by decide)
    · simp only [eq_iff_iff, iff_false]; intro heq; subst heq; exact absurd h (by decide)
    · rw [string_true_data]
      refine pyStartsWith_ne_head _ _ ?_
      intro heq; subst heq; exact absurd h (by decide)
    · rw [string_false_data]
      refine pyStartsWith_ne_head _ _ ?_
      intro heq; subst heq; exact absurd h (by decide)
    · rw [string_null_data]
      refine pyStartsWith_ne_head _ _ ?_
      intro heq; subst heq; exact absurd h (by decide)

theorem serInt_head_shape (n : Int) :
    ∃ c t, serInt n = c :: t ∧ headOk c = true ∧ (c = '-' ∨ c.isDigit = true) := by
  by_cases hn : n < 0
  · exact ⟨'-', natDigs n.natAbs, by simp [serInt, hn], by decide, Or.inl rfl⟩
  · obtain ⟨c, t, hct⟩ : ∃ c t, natDigs n.natAbs = c :: t := by
      cases hh : natDigs n.natAbs with
      | nil => exact absurd hh (natDigs_ne_nil _)
      | cons c t => exact ⟨c, t, rfl⟩
    have hdig : c.isDigit = true := natDigs_all_digit n.natAbs c (by rw [hct]; simp)
    exact ⟨c, t, by simp [serInt, hn, hct], headOk_of_digit hdig, Or.inr hdig⟩

theorem parse_value_int (n : Int) (f : Nat) {rest : List Char} (hr : sepOk rest = true) :
    parse_value (f + 1) (serInt n ++ rest) = some (.int n, rest) := by
  obtain ⟨c, t, hct, hok, hlit⟩ := serInt_head_shape n
  have hfacts := headOk_spec hok
  have hl := not_lit_heads (u := t ++ rest) hlit
  rw [show serInt n ++ rest = c :: (t ++ rest) from by rw [hct]; simp]
  rw [parse_value_cons _ _ _ hfacts.1]
  rw [if_neg (by simp [hl.1]), if_neg (by simp [hl.2.1]), if_neg (by simp [hl.2.2.1])]
  rw [hl.2.2.2.1, hl.2.2.2.2.1, hl.2.2.2.2.2]
  simp only [Bool.false_eq_true, if_false]
  rw [show c :: (t ++ rest) = serInt n ++ rest from by rw [hct]; simp]
  exact parse_number_serInt n hr

/-! container normal forms and step lemmas -/

theorem serF_arr_false (q : Char) (xs : List PyJson) :
    serF q false (.arr xs) = '[' :: (serFElems q false xs ++ [']']) := by
  simp [serF]

theorem serF_obj_false (q : Char) (kvs : List (String × PyJson)) :
    serF q false (.obj kvs) = '{' :: (serFKvs q false kvs ++ ['}']) := by
  simp [serF]

theorem parse_elems_step_some {f : Nat} {s : List Char} {v : PyJson} {r : List Char}
    (h : parse_value f s = some (v, r)) :
    parse_elems (f + 1) s =
      (match skipWs r with
       | [] => none
       | d :: r2 =>
         if d = ',' then
           match parse_elems f r2 with
           | some (vs, r3) => some (v :: vs, r3)
           | none => none
         else if d = ']' then some ([v], r2)
         else none) := by
  conv_lhs => unfold parse_elems
  rw [h]

theorem parse_elems_step_none {f : Nat} {s : List Char} (h : parse_value f s = none) :
    parse_elems (f + 1) s = none := by
  conv_lhs => unfold parse_elems
  rw [h]

theorem pyDictInsert_notmem {acc : List (String × PyJson)} {k : String} (v : PyJson)
    (h : k ∉ acc.map Prod.fst) : pyDictInsert acc k v = acc ++ [(k, v)] := by
  induction acc with
  | nil => rfl
  | cons kv t ih =>
    obtain ⟨k', v'⟩ := kv
    simp at h
    rw [pyDictInsert, if_neg (show ¬ (k' = k) from fun hh => h.1 hh.symm)]
    have hk2 : k ∉ t.map Prod.fst := by
      intro hmem
      obtain ⟨⟨a, b⟩, hab, hfst⟩ := List.mem_map.mp hmem
      exact h.2 b (by simpa [show a = k from hfst] using hab)
    rw [ih hk2]
    simp

theorem dedupKvs_aux (kvs : List (String × PyJson)) :
    ∀ acc, ((acc.map Prod.fst) ++ kvs.map Prod.fst).Nodup →
      kvs.foldl (fun a kv => pyDictInsert a kv.1 kv.2) acc = acc ++ kvs := by
  induction kvs with
  | nil => intro acc h; simp
  | cons kv t ih =>
    intro acc h
    obtain ⟨k, v⟩ := kv
    simp only [List.foldl_cons]
    have hk : k ∉ acc.map Prod.fst := by
      have hd := (List.nodup_append.mp (by simpa using h)).2.2
      intro hmem
      exact hd hmem (by simp)
    rw [pyDictInsert_notmem v hk]
    rw [ih (acc ++ [(k, v)]) (by simpa using h)]
    simp

theorem dedupKvs_nodup (kvs : List (String × PyJson)) (h : (kvs.map Prod.fst).Nodup) :
    dedupKvs kvs = kvs := by
  have := dedupKvs_aux kvs [] (by simpa using h)
  simpa [dedupKvs] using this

theorem sepOk_rbracket (r : List Char) : sepOk (']' :: r) = true := by simp [sepOk]
theorem sepOk_rbrace (r : List Char) : sepOk ('}' :: r) = true := by simp [sepOk]
theorem sepOk_comma (r : List Char) : sepOk (',' :: r) = true := by simp [sepOk]

theorem parse_value_arr_nil (f : Nat) (rest : List Char) :
    parse_value (f + 1) ('[' :: (']' :: rest)) = some (.arr [], rest) := by
  rw [parse_value_cons _ _ _ (by decide), if_neg (by decide), if_pos rfl,
    skipWs_cons_not _ (by decide)]
  simp

theorem parse_value_obj_nil (f : Nat) (rest : List Char) :
    parse_value (f + 1) ('{' :: ('}' :: rest)) = some (.obj [], rest) := by
  rw [parse_value_cons _ _ _ (by decide), if_pos rfl, skipWs_cons_not _ (by decide)]
  simp

theorem parse_value_lbracket (f : Nat) {c : Char} (u : List Char) (hc : jsonWs c = false)
    (hne : (c = ']') = False) :
    parse_value (f + 1) ('[' :: (c :: u)) =
      (parse_elems f (c :: u)).map (fun p => (PyJson.arr p.1, p.2)) := by
  rw [parse_value_cons _ _ _ (by decide), if_neg (by decide), if_pos rfl,
    skipWs_cons_not _ hc]
  simp [hne]

theorem parse_value_lbrace (f : Nat) {c : Char} (u : List Char) (hc : jsonWs c = false)
    (hne : (c = '}') = False) :
    parse_value (f + 1) ('{' :: (c :: u)) =
      (parse_members f (c :: u)).map (fun p => (PyJson.obj (dedupKvs p.1), p.2)) := by
  rw [parse_value_cons _ _ _ (by decide), if_pos rfl, skipWs_cons_not _ hc]
  simp [hne]

theorem parse_members_step (f : Nat) {k : String} (hk : ∀ c ∈ k.data, safeChar c = true)
    (w : List Char) :
    parse_members (f + 1) (dquote :: (k.data ++ dquote :: ':' :: w)) =
      (match parse_value f w with
       | none => none
       | some (v, r3) =>
         match skipWs r3 with
         | [] => none
         | e :: r4 =>
           if e = ',' then
             match parse_members f r4 with
             | some (kvs, r5) => some ((k, v) :: kvs, r5)
             | none => none
           else if e = '}' then some ([(k, v)], r4)
           else none) := by
  conv_lhs => unfold parse_members
  rw [skipWs_cons_not _ (by decide)]
  simp only [if_pos rfl, parse_string_body_safe hk (':' :: w),
    skipWs_cons_not _ (show jsonWs ':' = false by decide)]
  rfl

mutual

/-- Parsing a canonical safe serialization either succeeds exactly, or runs
out of fuel (and the fuel was below the weight). -/
theorem Pv : ∀ (x : PyJson), safeJson x = true → ∀ (f : Nat) (rest : List Char),
    sepOk rest = true →
    parse_value f (serF dquote false x ++ rest) = some (x, rest) ∨
      (parse_value f (serF dquote false x ++ rest) = none ∧ f < Wv x)
  | x, _, 0, _, _ => Or.inr ⟨rfl, by cases x <;> (simp [Wv]; try omega)⟩
  | .null, _, f + 1, rest, _ => Or.inl (parse_value_null f rest)
  | .bool true, _, f + 1, rest, _ => Or.inl (parse_value_true f rest)
  | .bool false, _, f + 1, rest, _ => Or.inl (parse_value_false f rest)
  | .int n, _, f + 1, rest, hr => Or.inl (parse_value_int n f hr)
  | .str s, hx, f + 1, rest, _ => Or.inl (parse_value_str (by
      simp only [safeJson, List.all_eq_true] at hx
      exact hx) f rest)
  | .arr [], _, f + 1, rest, _ => Or.inl (by
      rw [show serF dquote false (.arr []) ++ rest = '[' :: (']' :: rest) from by
        simp [serF_arr_false, serFElems]]
      exact parse_value_arr_nil f rest)
  | .arr (x :: xs), hx, f + 1, rest, hr => by
      have hsafe : safeElems (x :: xs) = true := by simpa [safeJson] using hx
      obtain ⟨c, t, hct, hok⟩ :=
        serFElems_head (Or.inr rfl) false (show (x :: xs) ≠ [] by simp)
      have hfacts := headOk_spec hok
      have hshape : serF dquote false (.arr (x :: xs)) ++ rest
          = '[' :: (c :: (t ++ ']' :: rest)) := by
        rw [serF_arr_false, hct]
        simp
      rw [hshape, parse_value_lbracket f _ hfacts.1 hfacts.2.2.1]
      have hback : c :: (t ++ ']' :: rest)
          = serFElems dquote false (x :: xs) ++ ']' :: rest := by rw [hct]; simp
      rw [hback]
      rcases Pl (x :: xs) hsafe (by simp) f rest hr with hgood | ⟨hnone, hlt⟩
      · left
        rw [hgood]
        rfl
      · right
        refine ⟨by rw [hnone]; rfl, ?_⟩
        simp only [Wv]
        omega
  | .obj [], _, f + 1, rest, _ => Or.inl (by
      rw [show serF dquote false (.obj []) ++ rest = '{' :: ('}' :: rest) from by
        simp [serF_obj_false, serFKvs]]
      exact parse_value_obj_nil f rest)
  | .obj (kv :: kvs), hx, f + 1, rest, hr => by
      have hx2 := hx
      simp only [safeJson, Bool.and_eq_true] at hx2
      obtain ⟨u, hu⟩ := serFKvs_cons dquote false (show (kv :: kvs) ≠ [] by simp)
      have hshape : serF dquote false (.obj (kv :: kvs)) ++ rest
          = '{' :: (dquote :: (u ++ '}' :: rest)) := by
        rw [serF_obj_false, hu]
        simp
      rw [hshape, parse_value_lbrace f _ (by decide) (by decide)]
      have hback : dquote :: (u ++ '}' :: rest)
          = serFKvs dquote false (kv :: kvs) ++ '}' :: rest := by rw [hu]; simp
      rw [hback]
      rcases Pk (kv :: kvs) hx2.1 (by simp) f rest hr with hgood | ⟨hnone, hlt⟩
      · left
        rw [hgood]
        simp [dedupKvs_nodup (kv :: kvs) (by simpa using hx2.2)]
      · right
        refine ⟨by rw [hnone]; rfl, ?_⟩
        simp only [Wv]
        omega

/-- Elementwise version of `Pv` for array bodies. -/
theorem Pl : ∀ (xs : List PyJson), safeElems xs = true → xs ≠ [] → ∀ (f : Nat)
    (rest : List Char), sepOk rest = true →
    parse_elems f (serFElems dquote false xs ++ ']' :: rest) = some (xs, rest) ∨
      (parse_elems f (serFElems dquote false xs ++ ']' :: rest) = none ∧ f < Wl xs)
  | [], _, hne, _, _, _ => absurd rfl hne
  | x :: t, _, _, 0, rest, _ => Or.inr ⟨rfl, by simp [Wl]⟩
  | [x], hx, _, f + 1, rest, hr => by
      have hsx : safeJson x = true := by simpa [safeElems] using hx
      have hone : serFElems dquote false [x] = serF dquote false x := by simp [serFElems]
      rcases Pv x hsx f (']' :: rest) (sepOk_rbracket rest) with hgood | ⟨hnone, hlt⟩
      · left
        rw [hone, parse_elems_step_some hgood, skipWs_cons_not _ (by decide)]
        simp
      · right
        refine ⟨?_, ?_⟩
        · rw [hone]
          exact parse_elems_step_none hnone
        · simp only [Wl]
          omega
  | x :: y :: t, hx, _, f + 1, rest, hr => by
      have hx2 : safeJson x = true ∧ safeElems (y :: t) = true := by
        have h := hx
        rw [show safeElems (x :: y :: t) = (safeJson x && safeElems (y :: t)) from rfl] at h
        simp only [Bool.and_eq_true] at h
        exact h
      have hshape : serFElems dquote false (x :: y :: t) ++ ']' :: rest
          = serF dquote false x ++ (',' :: (serFElems dquote false (y :: t) ++ ']' :: rest)) := by
        simp [serFElems]
      rw [hshape]
      rcases Pv x hx2.1 f (',' :: (serFElems dquote false (y :: t) ++ ']' :: rest))
          (sepOk_comma _) with hgood | ⟨hnone, hlt⟩
      · rw [parse_elems_step_some hgood, skipWs_cons_not _ (by decide)]
        rcases Pl (y :: t) hx2.2 (by simp) f rest hr with hg2 | ⟨hn2, hlt2⟩
        · left
          simp [hg2]
        · right
          refine ⟨by simp [hn2], ?_⟩
          simp only [Wl] at hlt2 ⊢
          omega
      · right
        refine ⟨parse_elems_step_none hnone, ?_⟩
        simp only [Wl]
        omega

/-- Memberwise version of `Pv` for object bodies. -/
theorem Pk : ∀ (kvs : List (String × PyJson)), safeKvs kvs = true → kvs ≠ [] →
    ∀ (f : Nat) (rest : List Char), sepOk rest = true →
    parse_members f (serFKvs dquote false kvs ++ '}' :: rest) = some (kvs, rest) ∨
      (parse_members f (serFKvs dquote false kvs ++ '}' :: rest) = none ∧ f < Wk kvs)
  | [], _, hne, _, _, _ => absurd rfl hne
  | (k, v) :: t, _, _, 0, rest, _ => Or.inr ⟨rfl, by simp [Wk]⟩
  | [(k, v)], hx, _, f + 1, rest, hr => by
      have hx2 := hx
      simp only [safeKvs, Bool.and_eq_true, List.all_eq_true] at hx2
      have hshape : serFKvs dquote false [(k, v)] ++ '}' :: rest
          = dquote :: (k.data ++ dquote :: ':' :: (serF dquote false v ++ '}' :: rest)) := by
        simp [serFKvs]
      rw [hshape, parse_members_step f hx2.1.1]
      rcases Pv v hx2.1.2 f ('}' :: rest) (sepOk_rbrace rest) with hgood | ⟨hnone, hlt⟩
      · left
        rw [hgood]
        simp [show skipWs ('}' :: rest) = '}' :: rest from skipWs_cons_not _ (by decide)]
      · right
        refine ⟨by rw [hnone], ?_⟩
        simp only [Wk]
        omega
  | (k, v) :: m :: t, hx, _, f + 1, rest, hr => by
      have hx2 : ((∀ c ∈ k.data, safeChar c = true) ∧ safeJson v = true) ∧
          safeKvs (m :: t) = true := by
        have h := hx
        rw [show safeKvs ((k, v) :: m :: t)
            = ((k.data.all safeChar && safeJson v) && safeKvs (m :: t)) from rfl] at h
        simp only [Bool.and_eq_true, List.all_eq_true] at h
        exact h
      have hshape : serFKvs dquote false ((k, v) :: m :: t) ++ '}' :: rest
          = dquote :: (k.data ++ dquote :: ':' ::
              (serF dquote false v ++ (',' :: (serFKvs dquote false (m :: t) ++ '}' :: rest)))) := by
        simp [serFKvs]
      rw [hshape, parse_members_step f hx2.1.1]
      rcases Pv v hx2.1.2 f (',' :: (serFKvs dquote false (m :: t) ++ '}' :: rest))
          (sepOk_comma _) with hgood | ⟨hnone, hlt⟩
      · rw [hgood]
        rcases Pk (m :: t) hx2.2 (by simp) f rest hr with hg2 | ⟨hn2, hlt2⟩
        · left
          simp [show skipWs (',' :: (serFKvs dquote false (m :: t) ++ '}' :: rest))
              = ',' :: (serFKvs dquote false (m :: t) ++ '}' :: rest) from
            skipWs_cons_not _ (by decide), hg2]
        · right
          refine ⟨by simp [show skipWs (',' :: (serFKvs dquote false (m :: t) ++ '}' :: rest))
              = ',' :: (serFKvs dquote false (m :: t) ++ '}' :: rest) from
            skipWs_cons_not _ (by decide), hn2], ?_⟩
          simp only [Wk] at hlt2 ⊢
          omega
      · right
        refine ⟨by rw [hnone], ?_⟩
        simp only [Wk]
        omega

end

/-! fuel bounds and json_loads on canonical serializations -/

theorem serF_length_pos (b : Bool) (x : PyJson) :
    1 ≤ (serF dquote b x).length := by
  obtain ⟨c, t, hct, _⟩ := serF_head (Or.inr rfl) b x
  rw [hct]
  simp

mutual

theorem Wv_le : ∀ x : PyJson, Wv x ≤ (serF dquote false x).length
  | .null => by decide
  | .bool true => by decide
  | .bool false => by decide
  | .int n => by
      have := serF_length_pos false (.int n)
      simp only [Wv]
      omega
  | .str s => by
      rw [show Wv (.str s) = 1 from rfl, show serF dquote false (.str s)
          = dquote :: s.data ++ [dquote] from rfl]
      simp
  | .arr [] => by decide
  | .arr (x :: xs) => by
      have h := Wl_le (x :: xs) (by simp)
      have hlen : (serF dquote false (.arr (x :: xs))).length
          = (serFElems dquote false (x :: xs)).length + 2 := by
        rw [serF_arr_false]
        simp
      rw [show Wv (.arr (x :: xs)) = 1 + Wl (x :: xs) from rfl, hlen]
      omega
  | .obj [] => by decide
  | .obj (kv :: kvs) => by
      have h := Wk_le (kv :: kvs) (by simp)
      have hlen : (serF dquote false (.obj (kv :: kvs))).length
          = (serFKvs dquote false (kv :: kvs)).length + 2 := by
        rw [serF_obj_false]
        simp
      rw [show Wv (.obj (kv :: kvs)) = 1 + Wk (kv :: kvs) from rfl, hlen]
      omega

theorem Wl_le : ∀ xs : List PyJson, xs ≠ [] →
    Wl xs ≤ (serFElems dquote false xs).length + 1
  | [], hne => absurd rfl hne
  | [x], _ => by
      have h1 := Wv_le x
      rw [show Wl [x] = 1 + Wv x + 0 from rfl,
        show serFElems dquote false [x] = serF dquote false x from rfl]
      omega
  | x :: y :: t, _ => by
      have h1 := Wv_le x
      have h2 := Wl_le (y :: t) (by simp)
      have hlen : (serFElems dquote false (x :: y :: t)).length
          = (serF dquote false x).length + 1 + (serFElems dquote false (y :: t)).length := by
        rw [show serFElems dquote false (x :: y :: t)
            = serF dquote false x ++ ',' :: serFElems dquote false (y :: t) from rfl]
        simp
        omega
      rw [show Wl (x :: y :: t) = 1 + Wv x + Wl (y :: t) from rfl, hlen]
      omega

theorem Wk_le : ∀ kvs : List (String × PyJson), kvs ≠ [] →
    Wk kvs ≤ (serFKvs dquote false kvs).length + 1
  | [], hne => absurd rfl hne
  | [(k, v)], _ => by
      have h1 := Wv_le v
      have hlen : (serFKvs dquote false [(k, v)]).length
          = k.data.length + 3 + (serF dquote false v).length := by
        rw [show serFKvs dquote false [(k, v)]
            = dquote :: k.data ++ dquote :: ':' :: serF dquote false v from rfl]
        simp
        omega
      rw [show Wk [(k, v)] = 1 + Wv v + 0 from rfl, hlen]
      omega
  | (k, v) :: m :: t, _ => by
      have h1 := Wv_le v
      have h2 := Wk_le (m :: t) (by simp)
      have hlen : (serFKvs dquote false ((k, v) :: m :: t)).length
          = k.data.length + 4 + (serF dquote false v).length
            + (serFKvs dquote false (m :: t)).length := by
        rw [show serFKvs dquote false ((k, v) :: m :: t)
            = dquote :: k.data ++ dquote :: ':' :: serF dquote false v
              ++ ',' :: serFKvs dquote false (m :: t) from rfl]
        simp
        omega
      rw [show Wk ((k, v) :: m :: t) = 1 + Wv v + Wk (m :: t) from rfl, hlen]
      omega

end

/-- The model `json.loads` inverts the canonical serialization of a safe value. -/
theorem json_loads_ser {x : PyJson} (hx : safeJson x = true) :
    json_loads (ser x) = some x := by
  rcases Pv x hx ((serF dquote false x).length + 1) [] rfl with hgood | ⟨_, hlt⟩
  · have hg2 : parse_value ((ser x).length + 1) (ser x) = some (x, []) := by
      simpa [ser] using hgood
    unfold json_loads
    rw [hg2]
    rfl
  · have := Wv_le x
    omega

/-! failure of parsing on trailing-comma serializations -/

theorem parse_value_sep_head {c : Char} (hc : c = ',' ∨ c = ']' ∨ c = '}')
    (f : Nat) (w : List Char) : parse_value f (c :: w) = none := by
  cases f with
  | zero => rfl
  | succ f =>
    rcases hc with h | h | h <;> subst h <;>
      (rw [parse_value_cons _ _ _ (by decide)]
       rw [if_neg (by decide), if_neg (by decide), if_neg (by decide)]
       rw [pyStartsWith_ne_head _ _ (by decide), pyStartsWith_ne_head _ _ (by decide),
         pyStartsWith_ne_head _ _ (by decide)]
       simp only [Bool.false_eq_true, if_false]
       unfold parse_number
       simp [List.takeWhile_cons_of_neg])

theorem parse_elems_sep_head {c : Char} (hc : c = ',' ∨ c = ']' ∨ c = '}')
    (f : Nat) (w : List Char) : parse_elems f (c :: w) = none := by
  cases f with
  | zero => rfl
  | succ f => exact parse_elems_step_none (parse_value_sep_head hc f w)

theorem parse_members_not_dquote {c : Char} (hws : jsonWs c = false)
    (hc : (c = dquote) = False) (f : Nat) (w : List Char) :
    parse_members f (c :: w) = none := by
  cases f with
  | zero => rfl
  | succ f =>
    conv_lhs => unfold parse_members
    rw [skipWs_cons_not _ hws]
    simp [hc]

theorem serF_trail_eq_of_not_big {x : PyJson} (h : isBig x = false) (q : Char) :
    serF q true x = serF q false x := by
  cases x with
  | null => rfl
  | bool b => cases b <;> rfl
  | int n => rfl
  | str s => rfl
  | arr xs => cases xs with
    | nil => rfl
    | cons y t => simp [isBig] at h
  | obj kvs => cases kvs with
    | nil => rfl
    | cons kv t => simp [isBig] at h

theorem serF_arr_true_cons (q : Char) (x : PyJson) (xs : List PyJson) :
    serF q true (.arr (x :: xs)) = '[' :: (serFElems q true (x :: xs) ++ ',' :: [']']) := by
  simp [serF]

theorem serF_obj_true_cons (q : Char) (kv : String × PyJson) (kvs : List (String × PyJson)) :
    serF q true (.obj (kv :: kvs)) = '{' :: (serFKvs q true (kv :: kvs) ++ ',' :: ['}']) := by
  simp [serF]

mutual

/-- Parsing a trailing-comma serialization of a non-empty container fails. -/
theorem Av : ∀ x : PyJson, safeJson x = true → isBig x = true → ∀ (f : Nat)
    (rest : List Char), parse_value f (serF dquote true x ++ rest) = none
  | .null, _, hbig, _, _ => by simp [isBig] at hbig
  | .bool b, _, hbig, _, _ => by simp [isBig] at hbig
  | .int n, _, hbig, _, _ => by simp [isBig] at hbig
  | .str s, _, hbig, _, _ => by simp [isBig] at hbig
  | .arr [], _, hbig, _, _ => by simp [isBig] at hbig
  | .obj [], _, hbig, _, _ => by simp [isBig] at hbig
  | .arr (x :: xs), hx, _, f, rest => by
      cases f with
      | zero => rfl
      | succ f =>
        have hsafe : safeElems (x :: xs) = true := by simpa [safeJson] using hx
        obtain ⟨c, t, hct, hok⟩ :=
          serFElems_head (Or.inr rfl) true (show (x :: xs) ≠ [] by simp)
        have hfacts := headOk_spec hok
        have hshape : serF dquote true (.arr (x :: xs)) ++ rest
            = '[' :: (c :: (t ++ ',' :: ']' :: rest)) := by
          rw [serF_arr_true_cons, hct]
          simp
        rw [hshape, parse_value_lbracket f _ hfacts.1 hfacts.2.2.1]
        rw [show c :: (t ++ ',' :: ']' :: rest)
            = serFElems dquote true (x :: xs) ++ ',' :: ']' :: rest from by rw [hct]; simp]
        rw [Al (x :: xs) hsafe f rest]
        rfl
  | .obj (kv :: kvs), hx, _, f, rest => by
      cases f with
      | zero => rfl
      | succ f =>
        have hx2 := hx
        simp only [safeJson, Bool.and_eq_true] at hx2
        obtain ⟨u, hu⟩ := serFKvs_cons dquote true (show (kv :: kvs) ≠ [] by simp)
        have hshape : serF dquote true (.obj (kv :: kvs)) ++ rest
            = '{' :: (dquote :: (u ++ ',' :: '}' :: rest)) := by
          rw [serF_obj_true_cons, hu]
          simp
        rw [hshape, parse_value_lbrace f _ (by decide) (by decide)]
        rw [show dquote :: (u ++ ',' :: '}' :: rest)
            = serFKvs dquote true (kv :: kvs) ++ ',' :: '}' :: rest from by rw [hu]; simp]
        rw [Ak (kv :: kvs) hx2.1 f rest]
        rfl

/-- Elementwise failure lemma for trailing-comma array bodies. -/
theorem Al : ∀ xs : List PyJson, safeElems xs = true → ∀ (f : Nat) (rest : List Char),
    parse_elems f (serFElems dquote true xs ++ ',' :: ']' :: rest) = none
  | [], _, f, rest => by
      rw [show serFElems dquote true [] ++ ',' :: ']' :: rest = ',' :: (']' :: rest) from rfl]
      exact parse_elems_sep_head (Or.inl rfl) f _
  | [x], hx, f, rest => by
      cases f with
      | zero => rfl
      | succ f =>
        have hsx : safeJson x = true := by simpa [safeElems] using hx
        have hshape : serFElems dquote true [x] ++ ',' :: ']' :: rest
            = serF dquote true x ++ (',' :: (']' :: rest)) := by
          simp [serFElems]
        rw [hshape]
        by_cases hbig : isBig x = true
        · exact parse_elems_step_none (Av x hsx hbig f _)
        · rw [serF_trail_eq_of_not_big (by simpa using hbig)]
          rcases Pv x hsx f (',' :: (']' :: rest)) (sepOk_comma _) with hgood | ⟨hnone, _⟩
          · rw [parse_elems_step_some hgood, skipWs_cons_not _ (by decide)]
            simp [parse_elems_sep_head (Or.inr (Or.inl rfl)) f rest]
          · exact parse_elems_step_none hnone
  | x :: y :: t, hx, f, rest => by
      cases f with
      | zero => rfl
      | succ f =>
        have hx2 : safeJson x = true ∧ safeElems (y :: t) = true := by
          have h := hx
          rw [show safeElems (x :: y :: t) = (safeJson x && safeElems (y :: t)) from rfl] at h
          simp only [Bool.and_eq_true] at h
          exact h
        have hshape : serFElems dquote true (x :: y :: t) ++ ',' :: ']' :: rest
            = serF dquote true x
              ++ (',' :: (serFElems dquote true (y :: t) ++ ',' :: ']' :: rest)) := by
          simp [serFElems]
        rw [hshape]
        by_cases hbig : isBig x = true
        · exact parse_elems_step_none (Av x hx2.1 hbig f _)
        · rw [serF_trail_eq_of_not_big (by simpa using hbig)]
          rcases Pv x hx2.1 f (',' :: (serFElems dquote true (y :: t) ++ ',' :: ']' :: rest))
              (sepOk_comma _) with hgood | ⟨hnone, _⟩
          · rw [parse_elems_step_some hgood, skipWs_cons_not _ (by decide)]
            simp [Al (y :: t) hx2.2 f rest]
          · exact parse_elems_step_none hnone

/-- Memberwise failure lemma for trailing-comma object bodies. -/
theorem Ak : ∀ kvs : List (String × PyJson), safeKvs kvs = true → ∀ (f : Nat)
    (rest : List Char),
    parse_members f (serFKvs dquote true kvs ++ ',' :: '}' :: rest) = none
  | [], _, f, rest => by
      rw [show serFKvs dquote true [] ++ ',' :: '}' :: rest = ',' :: ('}' :: rest) from rfl]
      exact parse_members_not_dquote (by decide) (by decide) f _
  | [(k, v)], hx, f, rest => by
      cases f with
      | zero => rfl
      | succ f =>
        have hx2 := hx
        simp only [safeKvs, Bool.and_eq_true, List.all_eq_true] at hx2
        have hshape : serFKvs dquote true [(k, v)] ++ ',' :: '}' :: rest
            = dquote :: (k.data ++ dquote :: ':'
                :: (serF dquote true v ++ (',' :: ('}' :: rest)))) := by
          simp [serFKvs]
        rw [hshape, parse_members_step f hx2.1.1]
        by_cases hbig : isBig v = true
        · rw [Av v hx2.1.2 hbig f _]
        · rw [serF_trail_eq_of_not_big (by simpa using hbig)]
          rcases Pv v hx2.1.2 f (',' :: ('}' :: rest)) (sepOk_comma _)
            with hgood | ⟨hnone, _⟩
          · rw [hgood]
            simp [show skipWs (',' :: ('}' :: rest)) = ',' :: ('}' :: rest) from
                skipWs_cons_not _ (by decide),
              parse_members_not_dquote (show jsonWs '}' = false by decide)
                (show ('}' = dquote) = False by decide) f rest]
          · rw [hnone]
  | (k, v) :: m :: t, hx, f, rest => by
      cases f with
      | zero => rfl
      | succ f =>
        have hx2 : ((∀ c ∈ k.data, safeChar c = true) ∧ safeJson v = true) ∧
            safeKvs (m :: t) = true := by
          have h := hx
          rw [show safeKvs ((k, v) :: m :: t)
              = ((k.data.all safeChar && safeJson v) && safeKvs (m :: t)) from rfl] at h
          simp only [Bool.and_eq_true, List.all_eq_true] at h
          exact h
        have hshape : serFKvs dquote true ((k, v) :: m :: t) ++ ',' :: '}' :: rest
            = dquote :: (k.data ++ dquote :: ':'
                :: (serF dquote true v
                  ++ (',' :: (serFKvs dquote true (m :: t) ++ ',' :: '}' :: rest)))) := by
          simp [serFKvs]
        rw [hshape, parse_members_step f hx2.1.1]
        by_cases hbig : isBig v = true
        · rw [Av v hx2.1.2 hbig f _]
        · rw [serF_trail_eq_of_not_big (by simpa using hbig)]
          rcases Pv v hx2.1.2 f
              (',' :: (serFKvs dquote true (m :: t) ++ ',' :: '}' :: rest))
              (sepOk_comma _) with hgood | ⟨hnone, _⟩
          · rw [hgood]
            simp [show skipWs (',' :: (serFKvs dquote true (m :: t) ++ ',' :: '}' :: rest))
                = ',' :: (serFKvs dquote true (m :: t) ++ ',' :: '}' :: rest) from
              skipWs_cons_not _ (by decide), Ak (m :: t) hx2.2 f rest]
          · rw [hnone]

end

/-! comma_fix behavior on serialized text -/

theorem comma_fix_cons_not {c : Char} (hc : (c = ',') = False) (t : List Char) :
    comma_fix (c :: t) = c :: comma_fix t := by
  conv_lhs => unfold comma_fix
  simp [hc]

theorem comma_fix_comma_keep2 {w : List Char} {b : Char} {v : List Char}
    (hw : w.dropWhile reWs = b :: v) (hb2 : (b = '}') = False) (hb3 : (b = ']') = False) :
    comma_fix (',' :: w) = ',' :: comma_fix w := by
  conv_lhs => unfold comma_fix
  rw [if_pos rfl]
  split
  · rename_i b2 tail2 heq
    rw [hw] at heq
    have hb : b2 = b ∧ tail2 = v := by
      have := List.cons.injEq b v b2 tail2 ▸ heq
      simp at this
      exact ⟨this.1.symm, this.2.symm⟩
    rw [if_neg (by simp [hb.1, hb2, hb3])]
  · rename_i heq
    rw [hw] at heq

theorem comma_fix_comma_close {b : Char} (hb : b = '}' ∨ b = ']') (w : List Char) :
    comma_fix (',' :: (b :: w)) = b :: comma_fix w := by
  conv_lhs => unfold comma_fix
  rw [if_pos rfl]
  have hdw : (b :: w).dropWhile reWs = b :: w := by
    rw [List.dropWhile_cons_of_neg]
    rcases hb with h | h <;> subst h <;> decide
  have htw : (b :: w).takeWhile reWs = [] := by
    rw [List.takeWhile_cons_of_neg]
    rcases hb with h | h <;> subst h <;> decide
  split
  · rename_i b2 tail2 heq
    rw [hdw] at heq
    have hbb : b2 = b ∧ tail2 = w := by
      have := List.cons.injEq b w b2 tail2 ▸ heq
      simp at this
      exact ⟨this.1.symm, this.2.symm⟩
    rw [if_pos (by rcases hb with h | h <;> simp [hbb.1, h]), htw, hbb.1, hbb.2]
    simp
  · rename_i heq
    rw [hdw] at heq
    exact absurd heq (by simp)

theorem comma_fix_nocomma {l : List Char} (hl : ∀ c ∈ l, (c = ',') = False)
    (rest : List Char) : comma_fix (l ++ rest) = l ++ comma_fix rest := by
  induction l with
  | nil => simp
  | cons c t ih =>
    rw [List.cons_append, comma_fix_cons_not (hl c (by simp)), ih (fun d hd => hl d (by simp [hd]))]
    rfl

/-- A safe string body (followed by its closing quote) passes through
`comma_fix` unchanged. -/
theorem comma_fix_string {s : List Char} (hs : ∀ c ∈ s, safeChar c = true)
    (rest : List Char) :
    comma_fix (s ++ dquote :: rest) = s ++ dquote :: comma_fix rest := by
  induction s with
  | nil =>
    simp only [List.nil_append]
    exact comma_fix_cons_not (by decide) rest
  | cons c t ih =>
    by_cases hc : c = ','
    · subst hc
      have htail := ih (fun d hd => hs d (by simp [hd]))
      rw [List.cons_append]
      rcases hdw : (t ++ dquote :: rest).dropWhile reWs with _ | ⟨b, v⟩
      · exfalso
        have : dquote ∈ (t ++ dquote :: rest).dropWhile reWs ∨ True := Or.inr trivial
        have hne : (t ++ dquote :: rest).dropWhile reWs ≠ [] := by
          rw [List.dropWhile_append]
          split
          · rw [List.dropWhile_cons_of_neg (by decide)]
            simp
          · simp
        exact hne hdw
      · have hbsafe : (b = '}') = False ∧ (b = ']') = False := by
          rw [List.dropWhile_append] at hdw
          by_cases hemp : (t.dropWhile reWs).isEmpty = true
          · rw [if_pos hemp, List.dropWhile_cons_of_neg (by decide)] at hdw
            have : b = dquote := by
              have := List.cons.injEq dquote rest b v ▸ hdw
              simp at this
              exact this.1.symm
            subst this
            exact ⟨by decide, by decide⟩
          · rw [if_neg hemp] at hdw
            have hbmem : b ∈ t.dropWhile reWs := by
              cases hdd : t.dropWhile reWs with
              | nil => rw [hdd] at hemp; simp at hemp
              | cons b2 v2 =>
                rw [hdd] at hdw
                have := List.cons.injEq b2 (v2 ++ dquote :: rest) b v ▸ hdw
                simp at this
                simp [this.1]
            have hbsafe2 : safeChar b = true :=
              hs b (by simp [List.dropWhile_subset _ hbmem])
            have hf := safeChar_facts hbsafe2
            exact ⟨hf.2.2.2.2.2.1, hf.2.2.2.2.2.2.2⟩
        rw [comma_fix_comma_keep2 hdw hbsafe.1 hbsafe.2, htail]
        rfl
    · rw [List.cons_append, comma_fix_cons_not (by simp [hc]),
        ih (fun d hd => hs d (by simp [hd]))]
      rfl

theorem digit_ne_comma {c : Char} (h : c.isDigit = true) : (c = ',') = False := by
  simp only [eq_iff_iff, iff_false]
  intro heq
  subst heq
  exact absurd h (by decide)

theorem serInt_no_comma (n : Int) : ∀ c ∈ serInt n, (c = ',') = False := by
  intro c hc
  unfold serInt at hc
  by_cases hn : n < 0
  · rw [if_pos hn] at hc
    simp at hc
    rcases hc with hc | hc
    · subst hc; decide
    · exact digit_ne_comma (natDigs_all_digit _ c hc)
  · rw [if_neg hn] at hc
    exact digit_ne_comma (natDigs_all_digit _ c hc)

mutual

/-- The fixup `comma_fix` rewrites a (possibly trailing-comma) serialization into the
canonical one and continues on the remainder. -/
theorem Cv : ∀ x : PyJson, safeJson x = true → ∀ (b : Bool) (rest : List Char),
    comma_fix (serF dquote b x ++ rest) = serF dquote false x ++ comma_fix rest
  | .null, _, b, rest => by
      rw [show serF dquote b .null = "null".data from by cases b <;> rfl]
      exact comma_fix_nocomma (by decide) rest
  | .bool true, _, b, rest => by
      rw [show serF dquote b (.bool true) = "true".data from by cases b <;> rfl]
      exact comma_fix_nocomma (by decide) rest
  | .bool false, _, b, rest => by
      rw [show serF dquote b (.bool false) = "false".data from by cases b <;> rfl]
      exact comma_fix_nocomma (by decide) rest
  | .int n, _, b, rest => by
      rw [show serF dquote b (.int n) = serInt n from by cases b <;> rfl]
      exact comma_fix_nocomma (serInt_no_comma n) rest
  | .str s, hx, b, rest => by
      have hsafe : ∀ c ∈ s.data, safeChar c = true := by
        simpa [safeJson, List.all_eq_true] using hx
      rw [show serF dquote b (.str s) ++ rest = dquote :: (s.data ++ dquote :: rest) from by
        cases b <;> simp [serF]]
      rw [comma_fix_cons_not (by decide), comma_fix_string hsafe rest]
      rw [show serF dquote false (.str s) = dquote :: s.data ++ [dquote] from rfl]
      simp
  | .arr [], _, b, rest => by
      rw [show serF dquote b (.arr []) = '[' :: [']'] from by cases b <;> rfl]
      rw [show ('[' :: [']']) ++ rest = '[' :: (']' :: rest) from rfl]
      rw [comma_fix_cons_not (by decide), comma_fix_cons_not (by decide)]
      rfl
  | .arr (x :: xs), hx, b, rest => by
      have hsafe : safeElems (x :: xs) = true := by simpa [safeJson] using hx
      cases b with
      | false =>
        rw [serF_arr_false]
        rw [show ('[' :: (serFElems dquote false (x :: xs) ++ [']'])) ++ rest
            = '[' :: (serFElems dquote false (x :: xs) ++ (']' :: rest)) from by simp]
        rw [comma_fix_cons_not (by decide)]
        rw [Cl (x :: xs) hsafe (by simp) false (']' :: rest)]
        rw [comma_fix_cons_not (by decide)]
        simp
      | true =>
        rw [serF_arr_true_cons]
        rw [show ('[' :: (serFElems dquote true (x :: xs) ++ ',' :: [']'])) ++ rest
            = '[' :: (serFElems dquote true (x :: xs) ++ (',' :: (']' :: rest))) from by simp]
        rw [comma_fix_cons_not (by decide)]
        rw [Cl (x :: xs) hsafe (by simp) true (',' :: (']' :: rest))]
        rw [comma_fix_comma_close (Or.inr rfl) rest]
        rw [serF_arr_false]
        simp
  | .obj [], _, b, rest => by
      rw [show serF dquote b (.obj []) = '{' :: ['}'] from by cases b <;> rfl]
      rw [show ('{' :: ['}']) ++ rest = '{' :: ('}' :: rest) from rfl]
      rw [comma_fix_cons_not (by decide), comma_fix_cons_not (by decide)]
      rfl
  | .obj (kv :: kvs), hx, b, rest => by
      have hsafe : safeKvs (kv :: kvs) = true := by
        have h := hx
        simp only [safeJson, Bool.and_eq_true] at h
        exact h.1
      cases b with
      | false =>
        rw [serF_obj_false]
        rw [show ('{' :: (serFKvs dquote false (kv :: kvs) ++ ['}'])) ++ rest
            = '{' :: (serFKvs dquote false (kv :: kvs) ++ ('}' :: rest)) from by simp]
        rw [comma_fix_cons_not (by decide)]
        rw [Ck (kv :: kvs) hsafe (by simp) false ('}' :: rest)]
        rw [comma_fix_cons_not (by decide)]
        simp
      | true =>
        rw [serF_obj_true_cons]
        rw [show ('{' :: (serFKvs dquote true (kv :: kvs) ++ ',' :: ['}'])) ++ rest
            = '{' :: (serFKvs dquote true (kv :: kvs) ++ (',' :: ('}' :: rest))) from by simp]
        rw [comma_fix_cons_not (by decide)]
        rw [Ck (kv :: kvs) hsafe (by simp) true (',' :: ('}' :: rest))]
        rw [comma_fix_comma_close (Or.inl rfl) rest]
        rw [serF_obj_false]
        simp

/-- Elementwise version of `Cv`. -/
theorem Cl : ∀ xs : List PyJson, safeElems xs = true → xs ≠ [] → ∀ (b : Bool)
    (rest : List Char),
    comma_fix (serFElems dquote b xs ++ rest) = serFElems dquote false xs ++ comma_fix rest
  | [], _, hne, _, _ => absurd rfl hne
  | [x], hx, _, b, rest => by
      have hsx : safeJson x = true := by simpa [safeElems] using hx
      rw [show serFElems dquote b [x] = serF dquote b x from rfl,
        show serFElems dquote false [x] = serF dquote false x from rfl]
      exact Cv x hsx b rest
  | x :: y :: t, hx, _, b, rest => by
      have hx2 : safeJson x = true ∧ safeElems (y :: t) = true := by
        have h := hx
        rw [show safeElems (x :: y :: t) = (safeJson x && safeElems (y :: t)) from rfl] at h
        simp only [Bool.and_eq_true] at h
        exact h
      obtain ⟨c, u, hcu, hok⟩ := serFElems_head (Or.inr rfl) b (show (y :: t) ≠ [] by simp)
      have hfacts := headOk_spec hok
      rw [show serFElems dquote b (x :: y :: t) ++ rest
          = serF dquote b x ++ (',' :: (serFElems dquote b (y :: t) ++ rest)) from by
        rw [show serFElems dquote b (x :: y :: t)
            = serF dquote b x ++ ',' :: serFElems dquote b (y :: t) from rfl]
        simp]
      rw [Cv x hx2.1 b _]
      have hdw : (serFElems dquote b (y :: t) ++ rest).dropWhile reWs
          = c :: (u ++ rest) := by
        rw [hcu, List.cons_append, List.dropWhile_cons_of_neg (by simp [hfacts.2.1])]
      rw [comma_fix_comma_keep2 hdw hfacts.2.2.2.1 hfacts.2.2.1]
      rw [Cl (y :: t) hx2.2 (by simp) b rest]
      rw [show serFElems dquote false (x :: y :: t)
          = serF dquote false x ++ ',' :: serFElems dquote false (y :: t) from rfl]
      simp

/-- Memberwise version of `Cv`. -/
theorem Ck : ∀ kvs : List (String × PyJson), safeKvs kvs = true → kvs ≠ [] →
    ∀ (b : Bool) (rest : List Char),
    comma_fix (serFKvs dquote b kvs ++ rest) = serFKvs dquote false kvs ++ comma_fix rest
  | [], _, hne, _, _ => absurd rfl hne
  | [(k, v)], hx, _, b, rest => by
      have hx2 := hx
      simp only [safeKvs, Bool.and_eq_true, List.all_eq_true] at hx2
      rw [show serFKvs dquote b [(k, v)] ++ rest
          = dquote :: (k.data ++ dquote :: (':' :: (serF dquote b v ++ rest))) from by
        rw [show serFKvs dquote b [(k, v)]
            = dquote :: k.data ++ dquote :: ':' :: serF dquote b v from rfl]
        simp]
      rw [comma_fix_cons_not (by decide), comma_fix_string hx2.1.1,
        comma_fix_cons_not (by decide), Cv v hx2.1.2 b rest]
      rw [show serFKvs dquote false [(k, v)]
          = dquote :: k.data ++ dquote :: ':' :: serF dquote false v from rfl]
      simp
  | (k, v) :: m :: t, hx, _, b, rest => by
      have hx2 : ((∀ c ∈ k.data, safeChar c = true) ∧ safeJson v = true) ∧
          safeKvs (m :: t) = true := by
        have h := hx
        rw [show safeKvs ((k, v) :: m :: t)
            = ((k.data.all safeChar && safeJson v) && safeKvs (m :: t)) from rfl] at h
        simp only [Bool.and_eq_true, List.all_eq_true] at h
        exact h
      obtain ⟨u, hu⟩ := serFKvs_cons dquote b (show (m :: t) ≠ [] by simp)
      rw [show serFKvs dquote b ((k, v) :: m :: t) ++ rest
          = dquote :: (k.data ++ dquote :: (':'
              :: (serF dquote b v ++ (',' :: (serFKvs dquote b (m :: t) ++ rest))))) from by
        rw [show serFKvs dquote b ((k, v) :: m :: t)
            = dquote :: k.data ++ dquote :: ':' :: serF dquote b v
              ++ ',' :: serFKvs dquote b (m :: t) from rfl]
        simp]
      rw [comma_fix_cons_not (by decide), comma_fix_string hx2.1.1,
        comma_fix_cons_not (by decide), Cv v hx2.1.2 b _]
      have hdw : (serFKvs dquote b (m :: t) ++ rest).dropWhile reWs
          = dquote :: (u ++ rest) := by
        rw [hu, List.cons_append, List.dropWhile_cons_of_neg (by decide)]
      rw [comma_fix_comma_keep2 hdw (by decide) (by decide)]
      rw [Ck (m :: t) hx2.2 (by simp) b rest]
      rw [show serFKvs dquote false ((k, v) :: m :: t)
          = dquote :: k.data ++ dquote :: ':' :: serF dquote false v
            ++ ',' :: serFKvs dquote false (m :: t) from rfl]
      simp

end

theorem quote_fix_append (l r : List Char) :
    quote_fix (l ++ r) = quote_fix l ++ quote_fix r := by
  simp [quote_fix]

theorem quote_fix_id {l : List Char} (h : ∀ c ∈ l, (c = squote) = False) :
    quote_fix l = l := by
  induction l with
  | nil => rfl
  | cons c t ih =>
    unfold quote_fix
    simp only [List.map_cons]
    rw [if_neg (by simp [h c (by simp)])]
    have := ih (fun d hd => h d (by simp [hd]))
    unfold quote_fix at this
    rw [this]

theorem quote_fix_quote {q : Char} (hq : q = squote ∨ q = dquote) :
    (if q = squote then dquote else q) = dquote := by
  rcases hq with h | h <;> subst h <;> simp

theorem digit_ne_squote {c : Char} (h : c.isDigit = true) : (c = squote) = False := by
  simp only [eq_iff_iff, iff_false]
  intro heq
  subst heq
  exact absurd h (by decide)

theorem serInt_no_squote (n : Int) : ∀ c ∈ serInt n, (c = squote) = False := by
  intro c hc
  unfold serInt at hc
  by_cases hn : n < 0
  · rw [if_pos hn] at hc
    simp at hc
    rcases hc with hc | hc
    · subst hc; decide
    · exact digit_ne_squote (natDigs_all_digit _ c hc)
  · rw [if_neg hn] at hc
    exact digit_ne_squote (natDigs_all_digit _ c hc)

mutual

/-- Replacing single quotes with double quotes turns the `q`-delimited
serialization into the double-quoted one. -/
theorem Qv : ∀ x : PyJson, safeJson x = true → ∀ (b : Bool) (q : Char),
    q = squote ∨ q = dquote → quote_fix (serF q b x) = serF dquote b x
  | .null, _, b, q, hq => by
      rw [show serF q b .null = "null".data from rfl,
        show serF dquote b .null = "null".data from rfl]
      exact quote_fix_id (by decide)
  | .bool true, _, b, q, hq => by
      rw [show serF q b (.bool true) = "true".data from rfl,
        show serF dquote b (.bool true) = "true".data from rfl]
      exact quote_fix_id (by decide)
  | .bool false, _, b, q, hq => by
      rw [show serF q b (.bool false) = "false".data from rfl,
        show serF dquote b (.bool false) = "false".data from rfl]
      exact quote_fix_id (by decide)
  | .int n, _, b, q, hq => by
      rw [show serF q b (.int n) = serInt n from rfl,
        show serF dquote b (.int n) = serInt n from rfl]
      exact quote_fix_id (serInt_no_squote n)
  | .str s, hx, b, q, hq => by
      have hsafe : ∀ c ∈ s.data, safeChar c = true := by
        simpa [safeJson, List.all_eq_true] using hx
      rw [show serF q b (.str s) = q :: s.data ++ [q] from rfl,
        show serF dquote b (.str s) = dquote :: s.data ++ [dquote] from rfl]
      rw [show (q :: s.data ++ [q]) = (q :: s.data) ++ [q] from rfl, quote_fix_append]
      unfold quote_fix
      simp only [List.map_cons, List.map_nil]
      rw [quote_fix_quote hq]
      have hid : List.map (fun c => if c = squote then dquote else c) s.data = s.data := by
        have := quote_fix_id (l := s.data)
          (fun c hc => (safeChar_facts (hsafe c hc)).2.2.2.1)
        unfold quote_fix at this
        exact this
      rw [hid]
  | .arr xs, hx, b, q, hq => by
      cases xs with
      | nil => rcases hq with h | h <;> subst h <;> cases b <;> decide
      | cons x t =>
        have hsafe : safeElems (x :: t) = true := by simpa [safeJson] using hx
        have hself := Ql (x :: t) hsafe (by simp) b q hq
        rw [show serF q b (.arr (x :: t))
            = ('[' :: serFElems q b (x :: t))
              ++ ((if ((x :: t).isEmpty || !b) = true then [] else [',']) ++ [']']) from by
          simp [serF],
          show serF dquote b (.arr (x :: t))
            = ('[' :: serFElems dquote b (x :: t))
              ++ ((if ((x :: t).isEmpty || !b) = true then [] else [',']) ++ [']']) from by
          simp [serF]]
        rw [quote_fix_append]
        congr 1
        · unfold quote_fix
          simp only [List.map_cons]
          rw [if_neg (by decide)]
          unfold quote_fix at hself
          rw [hself]
        · cases b <;> simp <;> decide
  | .obj kvs, hx, b, q, hq => by
      cases kvs with
      | nil => rcases hq with h | h <;> subst h <;> cases b <;> decide
      | cons kv t =>
        have hsafe : safeKvs (kv :: t) = true := by
          have h := hx
          simp only [safeJson, Bool.and_eq_true] at h
          exact h.1
        have hself := Qk (kv :: t) hsafe (by simp) b q hq
        rw [show serF q b (.obj (kv :: t))
            = ('{' :: serFKvs q b (kv :: t))
              ++ ((if ((kv :: t).isEmpty || !b) = true then [] else [',']) ++ ['}']) from by
          simp [serF],
          show serF dquote b (.obj (kv :: t))
            = ('{' :: serFKvs dquote b (kv :: t))
              ++ ((if ((kv :: t).isEmpty || !b) = true then [] else [',']) ++ ['}']) from by
          simp [serF]]
        rw [quote_fix_append]
        congr 1
        · unfold quote_fix
          simp only [List.map_cons]
          rw [if_neg (by decide)]
          unfold quote_fix at hself
          rw [hself]
        · cases b <;> simp <;> decide

/-- Elementwise version of `Qv`. -/
theorem Ql : ∀ xs : List PyJson, safeElems xs = true → xs ≠ [] → ∀ (b : Bool) (q : Char),
    q = squote ∨ q = dquote → quote_fix (serFElems q b xs) = serFElems dquote b xs
  | [], _, hne, _, _, _ => absurd rfl hne
  | [x], hx, _, b, q, hq => by
      have hsx : safeJson x = true := by simpa [safeElems] using hx
      rw [show serFElems q b [x] = serF q b x from rfl,
        show serFElems dquote b [x] = serF dquote b x from rfl]
      exact Qv x hsx b q hq
  | x :: y :: t, hx, _, b, q, hq => by
      have hx2 : safeJson x = true ∧ safeElems (y :: t) = true := by
        have h := hx
        rw [show safeElems (x :: y :: t) = (safeJson x && safeElems (y :: t)) from rfl] at h
        simp only [Bool.and_eq_true] at h
        exact h
      rw [show serFElems q b (x :: y :: t)
          = serF q b x ++ ',' :: serFElems q b (y :: t) from rfl,
        show serFElems dquote b (x :: y :: t)
          = serF dquote b x ++ ',' :: serFElems dquote b (y :: t) from rfl]
      rw [quote_fix_append, Qv x hx2.1 b q hq]
      congr 1
      unfold quote_fix
      simp only [List.map_cons]
      rw [if_neg (by decide)]
      have := Ql (y :: t) hx2.2 (by simp) b q hq
      unfold quote_fix at this
      rw [this]

/-- Memberwise version of `Qv`. -/
theorem Qk : ∀ kvs : List (String × PyJson), safeKvs kvs = true → kvs ≠ [] →
    ∀ (b : Bool) (q : Char), q = squote ∨ q = dquote →
    quote_fix (serFKvs q b kvs) = serFKvs dquote b kvs
  | [], _, hne, _, _, _ => absurd rfl hne
  | [(k, v)], hx, _, b, q, hq => by
      have hx2 := hx
      simp only [safeKvs, Bool.and_eq_true, List.all_eq_true] at hx2
      rw [show serFKvs q b [(k, v)] = q :: k.data ++ q :: ':' :: serF q b v from rfl,
        show serFKvs dquote b [(k, v)]
          = dquote :: k.data ++ dquote :: ':' :: serF dquote b v from rfl]
      rw [quote_fix_append]
      unfold quote_fix
      simp only [List.map_cons]
      rw [quote_fix_quote hq, if_neg (by decide)]
      have hid : List.map (fun c => if c = squote then dquote else c) k.data = k.data := by
        have := quote_fix_id (l := k.data)
          (fun c hc => (safeChar_facts (hx2.1.1 c hc)).2.2.2.1)
        unfold quote_fix at this
        exact this
      rw [hid]
      have := Qv v hx2.1.2 b q hq
      unfold quote_fix at this
      rw [this]
  | (k, v) :: m :: t, hx, _, b, q, hq => by
      have hx2 : ((∀ c ∈ k.data, safeChar c = true) ∧ safeJson v = true) ∧
          safeKvs (m :: t) = true := by
        have h := hx
        rw [show safeKvs ((k, v) :: m :: t)
            = ((k.data.all safeChar && safeJson v) && safeKvs (m :: t)) from rfl] at h
        simp only [Bool.and_eq_true, List.all_eq_true] at h
        exact h
      rw [show serFKvs q b ((k, v) :: m :: t)
          = q :: k.data ++ q :: ':' :: serF q b v ++ ',' :: serFKvs q b (m :: t) from rfl,
        show serFKvs dquote b ((k, v) :: m :: t)
          = dquote :: k.data ++ dquote :: ':' :: serF dquote b v
            ++ ',' :: serFKvs dquote b (m :: t) from rfl]
      rw [quote_fix_append, quote_fix_append]
      unfold quote_fix
      simp only [List.map_cons]
      rw [quote_fix_quote hq, if_neg (by decide), if_neg (by decide)]
      have hid : List.map (fun c => if c = squote then dquote else c) k.data = k.data := by
        have := quote_fix_id (l := k.data)
          (fun c hc => (safeChar_facts (hx2.1.1 c hc)).2.2.2.1)
        unfold quote_fix at this
        exact this
      rw [hid]
      have h1 := Qv v hx2.1.2 b q hq
      unfold quote_fix at h1
      rw [h1]
      have h2 := Qk (m :: t) hx2.2 (by simp) b q hq
      unfold quote_fix at h2
      rw [h2]

end

/-! assembling the repair round-trip and idempotence facts -/

theorem firstIdxOf_head (mid : List Char) : firstIdxOf '{' ('{' :: mid) = some 0 := by
  simp [firstIdxOf, List.findIdx?_cons]

theorem lastIdxOf_last (mid : List Char) :
    lastIdxOf '}' (mid ++ ['}']) = some mid.length := by
  rw [lastIdxOf]
  rw [show (mid ++ ['}']).reverse = '}' :: mid.reverse from by simp]
  rw [show List.findIdx? (fun x => decide (x = '}')) ('}' :: mid.reverse) = some 0 from by
    simp [List.findIdx?_cons]]
  simp

theorem braceSlice_self (mid : List Char) :
    braceSlice ('{' :: mid ++ ['}']) = some ('{' :: mid ++ ['}']) := by
  have hfirst : firstIdxOf '{' ('{' :: mid ++ ['}']) = some 0 := firstIdxOf_head _
  have hlast : lastIdxOf '}' ('{' :: mid ++ ['}']) = some (mid.length + 1) := by
    have := lastIdxOf_last ('{' :: mid)
    simpa using this
  have hbs : braceSlice ('{' :: mid ++ ['}'])
      = if 0 < mid.length + 1 then some (pySlice ('{' :: mid ++ ['}']) 0 (mid.length + 1))
        else none := by
    unfold braceSlice
    rw [hfirst, hlast]
  rw [hbs, if_pos (by omega), pySlice]
  simp

theorem braceSlice_shape {l m : List Char} (h : braceSlice l = some m) :
    ∃ mid, m = '{' :: mid ++ ['}'] := by
  cases hf : firstIdxOf '{' l with
  | none => unfold braceSlice at h; rw [hf] at h; simp at h
  | some i =>
    cases hg : lastIdxOf '}' l with
    | none => unfold braceSlice at h; rw [hf, hg] at h; simp at h
    | some j =>
      have hbs : braceSlice l = if i < j then some (pySlice l i j) else none := by
        unfold braceSlice
        rw [hf, hg]
      rw [hbs] at h
      by_cases hij : i < j
      · rw [if_pos hij] at h
        simp at h
        obtain ⟨pre1, post1, hl1, hi⟩ := firstIdxOf_spec hf
        obtain ⟨pre2, post2, hl2, hj⟩ := lastIdxOf_spec hg
        have hdrop : l.drop i = '{' :: post1 := by
          rw [hl1, ← hi, List.drop_append_eq_append_drop]
          simp
        have hpost1 : post1 = (pre2.drop (i + 1)) ++ '}' :: post2 := by
          have e1 : l.drop (i + 1) = post1 := by
            have := congrArg (List.drop 1) hdrop
            simpa [List.drop_drop] using this
          have e2 : l.drop (i + 1) = (pre2.drop (i + 1)) ++ '}' :: post2 := by
            rw [hl2, List.drop_append_eq_append_drop]
            rw [show i + 1 - pre2.length = 0 from by omega]
            simp
          rw [← e1, e2]
        refine ⟨pre2.drop (i + 1), ?_⟩
        have hlen3 : (pre2.drop (i + 1)).length = j - i - 1 := by
          rw [List.length_drop]
          omega
        rw [← h, pySlice, hdrop, hpost1]
        rw [show j + 1 - i = ((pre2.drop (i + 1)).length + 1) + 1 from by omega]
        rw [List.take_cons]
        congr 1
        rw [List.take_append_eq_append_take]
        rw [show (pre2.drop (i + 1)).length + 1 + 1 - 1 = (pre2.drop (i + 1)).length + 1 from by
          omega]
        rw [List.take_all_of_le (by omega),
          show (pre2.drop (i + 1)).length + 1 - (pre2.drop (i + 1)).length = 1 from by omega]
        simp
        omega
      · rw [if_neg hij] at h
        simp at h

/-! strip and fence plumbing -/

theorem dropWhile_all {p : Char → Bool} {pre : List Char} (h : ∀ a ∈ pre, p a = true)
    (m : List Char) : (pre ++ m).dropWhile p = m.dropWhile p := by
  induction pre with
  | nil => rfl
  | cons a t ih =>
    rw [List.cons_append, List.dropWhile_cons_of_pos (h a (by simp))]
    exact ih (fun b hb => h b (by simp [hb]))

theorem pyStrip_ws_wrap (pre post : List Char) {l : List Char} {c d : Char}
    (h1 : l.head? = some c) (hc : pyWs c = false) (h2 : l.getLast? = some d)
    (hd : pyWs d = false) (hpre : ∀ a ∈ pre, pyWs a = true)
    (hpost : ∀ a ∈ post, pyWs a = true) :
    pyStrip (pre ++ l ++ post) = l := by
  unfold pyStrip
  rw [List.append_assoc, dropWhile_all hpre]
  cases l with
  | nil => simp at h1
  | cons a t =>
    have ha : a = c := by simpa using h1
    rw [List.cons_append, List.dropWhile_cons_of_neg (by simp [ha, hc])]
    rw [show a :: (t ++ post) = (a :: t) ++ post from rfl]
    rw [show ((a :: t) ++ post).reverse = post.reverse ++ (a :: t).reverse from by simp]
    rw [dropWhile_all (fun b hb => hpost b (by simpa using hb))]
    have hback : (a :: t).reverse.dropWhile pyWs = (a :: t).reverse := by
      cases hrev : (a :: t).reverse with
      | nil => simp at hrev
      | cons b u =>
        have hb : b = d := by
          have hh := List.head?_reverse (a :: t)
          rw [hrev, h2] at hh
          simpa using hh
        rw [List.dropWhile_cons_of_neg (by simp [hb, hd])]
    rw [hback, List.reverse_reverse]

theorem pyEndsWith_append_self (l suf : List Char) : pyEndsWith (l ++ suf) suf = true := by
  unfold pyEndsWith
  rw [List.reverse_append]
  exact List.isPrefixOf_iff_prefix.mpr (List.prefix_append _ _)

theorem pyEndsWith_ne_last {l : List Char} {d : Char} (h2 : l.getLast? = some d)
    (hd : ¬ (d = Char.ofNat 96)) : pyEndsWith l "```".data = false := by
  show pyStartsWith l.reverse ("```".data).reverse = false
  cases hrev : l.reverse with
  | nil =>
    rw [List.reverse_eq_nil_iff] at hrev
    rw [hrev] at h2
    simp at h2
  | cons b u =>
    have hb : b = d := by
      have hh := List.head?_reverse l
      rw [hrev, h2] at hh
      simpa using hh
    rw [show ("```".data).reverse
        = Char.ofNat 96 :: [Char.ofNat 96, Char.ofNat 96] from rfl]
    exact pyStartsWith_ne_head _ _ (by rw [hb]; intro hcon; exact hd hcon.symm)

theorem getLast?_cons_ne_nil {c : Char} {t : List Char} (h : t ≠ []) :
    (c :: t).getLast? = t.getLast? := by
  cases t with
  | nil => exact absurd rfl h
  | cons a u => simp

theorem ne_nil_of_getLast? {l : List Char} {d : Char} (h : l.getLast? = some d) :
    l ≠ [] := by
  intro hnil
  rw [hnil] at h
  simp at h

theorem getLast?_append_ne {l1 l2 : List Char} (h : l2 ≠ []) :
    (l1 ++ l2).getLast? = l2.getLast? := by
  rw [List.getLast?_append, List.getLast?_eq_getLast l2 h]
  rfl

theorem comma_fix_comma_close_gen {rest : List Char} {b : Char} {tail : List Char}
    (hsplit : rest.dropWhile reWs = b :: tail)
    (hb : (b = '\x7d' || b = ']') = true) :
    comma_fix (',' :: rest) = rest.takeWhile reWs ++ b :: comma_fix tail := by
  conv_lhs => unfold comma_fix
  rw [if_pos rfl]
  split
  · rename_i b2 tail2 heq
    rw [hsplit] at heq
    have hbb : b2 = b ∧ tail2 = tail := by
      have := List.cons.injEq b tail b2 tail2 ▸ heq
      simp at this
      exact ⟨this.1.symm, this.2.symm⟩
    rw [if_pos (by rw [hbb.1]; exact hb), hbb.1, hbb.2]
  · rename_i heq
    rw [hsplit] at heq
    exact absurd heq (by simp)

theorem comma_fix_nil : comma_fix [] = [] := by
  unfold comma_fix
  rfl

theorem comma_fix_last (l : List Char) (h : l.getLast? = some (Char.ofNat 125)) :
    (comma_fix l).getLast? = some (Char.ofNat 125) := by
  induction l using comma_fix.induct with
  | case1 => simp at h
  | case2 rest b tail hsplit hb ih =>
    rw [comma_fix_comma_close_gen hsplit hb]
    have hrest : rest.takeWhile reWs ++ (b :: tail) = rest := by
      rw [← hsplit]
      exact List.takeWhile_append_dropWhile _ _
    have hlr : rest.getLast? = some (Char.ofNat 125) := by
      rw [← getLast?_cons_ne_nil (c := ',')
        (by intro hnil; rw [hnil] at hrest; simp at hrest)]
      exact h
    cases tail with
    | nil =>
      have hbv : b = Char.ofNat 125 := by
        rw [← hrest, List.getLast?_concat] at hlr
        simpa using hlr
      rw [comma_fix_nil, hbv, List.getLast?_concat]
    | cons t0 ts =>
      have hlt : (t0 :: ts).getLast? = some (Char.ofNat 125) := by
        rw [← hrest, getLast?_append_ne (by simp), getLast?_cons_ne_nil (by simp)] at hlr
        exact hlr
      have hcf := ih hlt
      rw [getLast?_append_ne (by simp), getLast?_cons_ne_nil (ne_nil_of_getLast? hcf)]
      exact hcf
  | case3 rest b tail hsplit hb ih =>
    have hrne : rest ≠ [] := by
      intro hnil
      rw [hnil] at hsplit
      simp at hsplit
    simp only [Bool.or_eq_true, decide_eq_true_eq, not_or] at hb
    rw [comma_fix_comma_keep2 hsplit (eq_false hb.1) (eq_false hb.2)]
    have hlr : rest.getLast? = some (Char.ofNat 125) := by
      rw [← getLast?_cons_ne_nil (c := ',') hrne]
      exact h
    have hcf := ih hlr
    rw [getLast?_cons_ne_nil (ne_nil_of_getLast? hcf)]
    exact hcf
  | case4 rest hsplit ih =>
    have hall : ∀ a ∈ rest, reWs a = true := List.dropWhile_eq_nil_iff.mp hsplit
    cases rest with
    | nil => simp at h
    | cons r0 rs =>
      have hlr : (r0 :: rs).getLast? = some (Char.ofNat 125) := by
        rw [← getLast?_cons_ne_nil (c := ',') (by simp)]
        exact h
      have hmem : Char.ofNat 125 ∈ r0 :: rs := by
        have := List.mem_getLast?_eq_getLast (x := Char.ofNat 125) (by rw [hlr]; rfl)
        obtain ⟨hne, hx⟩ := this
        rw [hx]
        exact List.getLast_mem hne
      have := hall _ hmem
      simp [reWs] at this
  | case5 c rest hc ih =>
    have hcc : (c = ',') = False := by simp [hc]
    rw [comma_fix_cons_not hcc]
    cases rest with
    | nil =>
      have : c = Char.ofNat 125 := by simpa using h
      simp [this, comma_fix_nil]
    | cons r0 rs =>
      have hlr : (r0 :: rs).getLast? = some (Char.ofNat 125) := by
        rw [← getLast?_cons_ne_nil (c := c) (by simp)]
        exact h
      have hcf := ih hlr
      rw [getLast?_cons_ne_nil (ne_nil_of_getLast? hcf)]
      exact hcf

theorem extract_json_nofence {s : List Char} (h0 : pyStrip s = s)
    (hs1 : pyStartsWith s "```json".data = false)
    (hs2 : pyStartsWith s "```".data = false)
    (hs3 : pyEndsWith s "```".data = false) :
    extract_json s =
      match braceSlice s with
      | some json_str =>
        if (json_loads json_str).isSome then json_str
        else
          if (json_loads (comma_fix (quote_fix json_str))).isSome then
            comma_fix (quote_fix json_str)
          else []
      | none => [] := by
  simp only [extract_json, h0, hs1, hs2, hs3, Bool.false_eq_true, if_false]

theorem extract_json_braced (mid : List Char) :
    extract_json ('\x7b' :: mid ++ ['\x7d']) =
      if (json_loads ('\x7b' :: mid ++ ['\x7d'])).isSome then '\x7b' :: mid ++ ['\x7d']
      else
        if (json_loads (comma_fix (quote_fix ('\x7b' :: mid ++ ['\x7d'])))).isSome then
          comma_fix (quote_fix ('\x7b' :: mid ++ ['\x7d']))
        else [] := by
  have hlast : ('\x7b' :: mid ++ ['\x7d']).getLast? = some (Char.ofNat 125) := by
    rw [show '\x7b' :: mid ++ ['\x7d'] = ('\x7b' :: mid) ++ ['\x7d'] from rfl,
      List.getLast?_concat]
  rw [extract_json_nofence
    (pyStrip_eq_self (l := '\x7b' :: mid ++ ['\x7d']) (c := Char.ofNat 123)
      (d := Char.ofNat 125) rfl (by decide) hlast (by decide))
    (pyStartsWith_ne_head _ _ (by decide))
    (pyStartsWith_ne_head _ _ (by decide))
    (pyEndsWith_ne_last hlast (by decide))]
  rw [braceSlice_self]

theorem quote_fix_shape (mid : List Char) :
    ∃ mid2, comma_fix (quote_fix ('\x7b' :: mid ++ ['\x7d'])) = '\x7b' :: mid2 ++ ['\x7d'] := by
  have h1 : quote_fix ('\x7b' :: mid ++ ['\x7d']) = '\x7b' :: (quote_fix mid ++ ['\x7d']) := by
    simp [quote_fix]
    decide
  rw [h1, comma_fix_cons_not (by decide)]
  have hlast : (comma_fix (quote_fix mid ++ ['\x7d'])).getLast? = some (Char.ofNat 125) :=
    comma_fix_last _ (List.getLast?_concat _)
  have hne : comma_fix (quote_fix mid ++ ['\x7d']) ≠ [] := ne_nil_of_getLast? hlast
  have hdec := List.dropLast_concat_getLast hne
  have hgl : (comma_fix (quote_fix mid ++ ['\x7d'])).getLast hne = Char.ofNat 125 := by
    have hq := List.getLast?_eq_getLast _ hne
    rw [hq] at hlast
    simpa using hlast
  refine ⟨(comma_fix (quote_fix mid ++ ['\x7d'])).dropLast, ?_⟩
  conv_lhs => rw [← hdec]
  rw [hgl]
  rfl

theorem extract_json_out (s : List Char) :
    extract_json s = [] ∨
      ∃ mid, extract_json s = '\x7b' :: mid ++ ['\x7d'] ∧
        (json_loads (extract_json s)).isSome = true := by
  have key : ∀ t : List Char, (match braceSlice t with
      | some json_str =>
        if (json_loads json_str).isSome = true then json_str
        else
          if (json_loads (comma_fix (quote_fix json_str))).isSome = true then
            comma_fix (quote_fix json_str)
          else []
      | none => ([] : List Char)) = [] ∨
      ∃ mid, (match braceSlice t with
      | some json_str =>
        if (json_loads json_str).isSome = true then json_str
        else
          if (json_loads (comma_fix (quote_fix json_str))).isSome = true then
            comma_fix (quote_fix json_str)
          else []
      | none => ([] : List Char)) = '\x7b' :: mid ++ ['\x7d'] ∧
        (json_loads (match braceSlice t with
      | some json_str =>
        if (json_loads json_str).isSome = true then json_str
        else
          if (json_loads (comma_fix (quote_fix json_str))).isSome = true then
            comma_fix (quote_fix json_str)
          else []
      | none => ([] : List Char))).isSome = true := by
    intro t
    cases hbs : braceSlice t with
    | none => exact Or.inl rfl
    | some m =>
      obtain ⟨mid, rfl⟩ := braceSlice_shape hbs
      by_cases h1 : (json_loads ('\x7b' :: mid ++ ['\x7d'])).isSome = true
      · right
        refine ⟨mid, ?_, ?_⟩ <;> simp only [if_pos h1] <;> first | exact h1 | rfl
      · by_cases h2 :
          (json_loads (comma_fix (quote_fix ('\x7b' :: mid ++ ['\x7d'])))).isSome = true
        · right
          obtain ⟨mid2, hm2⟩ := quote_fix_shape mid
          refine ⟨mid2, ?_, ?_⟩ <;>
            simp only [if_neg h1, if_pos h2]
          · exact hm2
          · exact h2
        · left
          simp only [if_neg h1, if_neg h2]
  have hx := key (if pyEndsWith
      (if pyStartsWith
          (if pyStartsWith (pyStrip s) "```json".data = true then
            pyStrip (List.drop 7 (pyStrip s)) else pyStrip s) "```".data = true then
        pyStrip (List.drop 3
          (if pyStartsWith (pyStrip s) "```json".data = true then
            pyStrip (List.drop 7 (pyStrip s)) else pyStrip s))
      else
        (if pyStartsWith (pyStrip s) "```json".data = true then
          pyStrip (List.drop 7 (pyStrip s)) else pyStrip s)) "```".data = true then
      pyStrip (List.take
        ((if pyStartsWith
            (if pyStartsWith (pyStrip s) "```json".data = true then
              pyStrip (List.drop 7 (pyStrip s)) else pyStrip s) "```".data = true then
          pyStrip (List.drop 3
            (if pyStartsWith (pyStrip s) "```json".data = true then
              pyStrip (List.drop 7 (pyStrip s)) else pyStrip s))
        else
          (if pyStartsWith (pyStrip s) "```json".data = true then
            pyStrip (List.drop 7 (pyStrip s)) else pyStrip s)).length - 3)
        (if pyStartsWith
            (if pyStartsWith (pyStrip s) "```json".data = true then
              pyStrip (List.drop 7 (pyStrip s)) else pyStrip s) "```".data = true then
          pyStrip (List.drop 3
            (if pyStartsWith (pyStrip s) "```json".data = true then
              pyStrip (List.drop 7 (pyStrip s)) else pyStrip s))
        else
          (if pyStartsWith (pyStrip s) "```json".data = true then
            pyStrip (List.drop 7 (pyStrip s)) else pyStrip s)))
    else
      (if pyStartsWith
          (if pyStartsWith (pyStrip s) "```json".data = true then
            pyStrip (List.drop 7 (pyStrip s)) else pyStrip s) "```".data = true then
        pyStrip (List.drop 3
          (if pyStartsWith (pyStrip s) "```json".data = true then
            pyStrip (List.drop 7 (pyStrip s)) else pyStrip s))
      else
        (if pyStartsWith (pyStrip s) "```json".data = true then
          pyStrip (List.drop 7 (pyStrip s)) else pyStrip s)))
  simp only [extract_json]
  exact hx

theorem extract_json_nil : extract_json [] = [] := rfl

theorem extract_json_idem (s : List Char) :
    extract_json (extract_json s) = extract_json s := by
  rcases extract_json_out s with h | ⟨mid, h, hsome⟩
  · rw [h, extract_json_nil]
  · rw [h] at hsome ⊢
    rw [extract_json_braced mid, if_pos hsome]

/-! the three accepted serialization formats round-trip for safe objects -/

theorem json_loads_squote_obj (kv : String × PyJson) (t : List (String × PyJson)) :
    json_loads (serF squote false (.obj (kv :: t))) = none := by
  obtain ⟨u, hu⟩ := serFKvs_cons squote false (show (kv :: t) ≠ [] by simp)
  have hpv : ∀ f, parse_value f (serF squote false (.obj (kv :: t))) = none := by
    intro f
    rw [serF_obj_false, hu]
    cases f with
    | zero => rfl
    | succ f =>
      rw [show squote :: u ++ ['\x7d'] = squote :: (u ++ ['\x7d']) from rfl]
      rw [parse_value_lbrace f _ (by decide) (by decide)]
      rw [parse_members_not_dquote (by decide) (by decide)]
      rfl
  unfold json_loads
  rw [hpv]

theorem repair_single {kvs : List (String × PyJson)}
    (hx : safeJson (.obj kvs) = true) :
    json_loads (extract_json (ser_single (.obj kvs))) = some (.obj kvs) := by
  cases kvs with
  | nil => rfl
  | cons kv t =>
    have hshape : ser_single (.obj (kv :: t))
        = '\x7b' :: serFKvs squote false (kv :: t) ++ ['\x7d'] := by
      rw [show ser_single (.obj (kv :: t)) = serF squote false (.obj (kv :: t)) from rfl,
        serF_obj_false]
      rfl
    rw [hshape, extract_json_braced]
    rw [show ('\x7b' :: serFKvs squote false (kv :: t) ++ ['\x7d'])
        = serF squote false (.obj (kv :: t)) from (serF_obj_false _ _).symm]
    rw [json_loads_squote_obj]
    simp only [Option.isSome_none, Bool.false_eq_true, if_false]
    rw [Qv _ hx false squote (Or.inl rfl)]
    have hc := Cv _ hx false []
    rw [List.append_nil] at hc
    rw [hc, comma_fix_nil, List.append_nil]
    rw [show serF dquote false (.obj (kv :: t)) = ser (.obj (kv :: t)) from rfl]
    simp [json_loads_ser hx]

theorem repair_trail {kvs : List (String × PyJson)}
    (hx : safeJson (.obj kvs) = true) :
    json_loads (extract_json (ser_trail (.obj kvs))) = some (.obj kvs) := by
  cases kvs with
  | nil => rfl
  | cons kv t =>
    have hshape : ser_trail (.obj (kv :: t))
        = '\x7b' :: (serFKvs dquote true (kv :: t) ++ [',']) ++ ['\x7d'] := by
      rw [show ser_trail (.obj (kv :: t)) = serF dquote true (.obj (kv :: t)) from rfl,
        serF_obj_true_cons]
      simp
    have hnone : json_loads (serF dquote true (.obj (kv :: t))) = none := by
      have hpv := Av (.obj (kv :: t)) hx (by rfl) 
      unfold json_loads
      have := hpv ((serF dquote true (.obj (kv :: t))).length + 1) []
      rw [List.append_nil] at this
      rw [this]
    rw [hshape, extract_json_braced]
    rw [show ('\x7b' :: (serFKvs dquote true (kv :: t) ++ [',']) ++ ['\x7d'])
        = serF dquote true (.obj (kv :: t)) from by rw [serF_obj_true_cons]; simp]
    rw [hnone]
    simp only [Option.isSome_none, Bool.false_eq_true, if_false]
    rw [Qv _ hx true dquote (Or.inr rfl)]
    have hc := Cv _ hx true []
    rw [List.append_nil] at hc
    rw [hc, comma_fix_nil, List.append_nil]
    rw [show serF dquote false (.obj (kv :: t)) = ser (.obj (kv :: t)) from rfl]
    simp [json_loads_ser hx]

theorem repair_fence {kvs : List (String × PyJson)}
    (hx : safeJson (.obj kvs) = true) :
    json_loads (extract_json (fence_wrap (ser (.obj kvs)))) = some (.obj kvs) := by
  have hser : ser (.obj kvs) = '\x7b' :: serFKvs dquote false kvs ++ ['\x7d'] := by
    rw [show ser (.obj kvs) = serF dquote false (.obj kvs) from rfl, serF_obj_false]
    rfl
  have hserhead : (ser (.obj kvs)).head? = some (Char.ofNat 123) := by rw [hser]; rfl
  have hserlast : (ser (.obj kvs)).getLast? = some (Char.ofNat 125) := by
    rw [hser, show '\x7b' :: serFKvs dquote false kvs ++ ['\x7d']
      = ('\x7b' :: serFKvs dquote false kvs) ++ ['\x7d'] from rfl, List.getLast?_concat]
  have hfw : fence_wrap (ser (.obj kvs))
      = "```json".data ++ (['\n'] ++ (ser (.obj kvs) ++ "\n```".data)) := by
    simp [fence_wrap]
  have hE0 : pyStrip (fence_wrap (ser (.obj kvs))) = fence_wrap (ser (.obj kvs)) := by
    apply pyStrip_eq_self (c := Char.ofNat 96) (d := Char.ofNat 96) _ (by decide) _ (by decide)
    · rfl
    · rw [show fence_wrap (ser (.obj kvs))
        = ("```json\n".data ++ ser (.obj kvs)) ++ "\n```".data from rfl,
        getLast?_append_ne (by decide)]
      rfl
  have hE1 : pyStartsWith (fence_wrap (ser (.obj kvs))) ("```json".data) = true := by
    rw [hfw]
    exact pyStartsWith_append_self _ _
  have hE2 : pyStrip (List.drop 7 (fence_wrap (ser (.obj kvs))))
      = ser (.obj kvs) ++ "\n```".data := by
    rw [hfw, show (7 : Nat) = ("```json".data).length from rfl, List.drop_left]
    have := pyStrip_ws_wrap ['\n'] [] (l := ser (.obj kvs) ++ "\n```".data)
      (c := Char.ofNat 123) (d := Char.ofNat 96)
      (by rw [hser]; rfl) (by decide)
      (by rw [getLast?_append_ne (by decide)]; rfl) (by decide)
      (by decide) (by simp)
    simpa using this
  have hE3 : pyStartsWith (ser (.obj kvs) ++ "\n```".data) ("```".data) = false := by
    rw [hser]
    exact pyStartsWith_ne_head _ _ (by decide)
  have hE4 : pyEndsWith (ser (.obj kvs) ++ "\n```".data) ("```".data) = true := by
    rw [show ser (.obj kvs) ++ "\n```".data
      = (ser (.obj kvs) ++ ['\n']) ++ "```".data from by simp]
    exact pyEndsWith_append_self _ _
  have hE5 : pyStrip (List.take ((ser (.obj kvs) ++ "\n```".data).length - 3)
      (ser (.obj kvs) ++ "\n```".data)) = ser (.obj kvs) := by
    rw [show ser (.obj kvs) ++ "\n```".data
      = (ser (.obj kvs) ++ ['\n']) ++ "```".data from by simp]
    rw [show ((ser (.obj kvs) ++ ['\n']) ++ "```".data).length - 3
      = (ser (.obj kvs) ++ ['\n']).length from by simp]
    rw [List.take_left]
    have := pyStrip_ws_wrap [] ['\n'] (l := ser (.obj kvs)) (c := Char.ofNat 123)
      (d := Char.ofNat 125) hserhead (by decide) hserlast (by decide)
      (by simp) (by decide)
    simpa using this
  have hE6 : braceSlice (ser (.obj kvs)) = some (ser (.obj kvs)) := by
    rw [hser]
    exact braceSlice_self _
  have hE7 : json_loads (ser (.obj kvs)) = some (.obj kvs) := json_loads_ser hx
  simp only [extract_json, hE0, hE1, if_true, hE2, hE3, Bool.false_eq_true, if_false, hE4,
    hE5, hE6, hE7, Option.isSome_some]

/-- C9 (amended): the structured-output repair `_extract_json` — a pure
function in this embedding, mutating no state and invoking no collaborator —
is idempotent on every input string; and every safe JSON **object** value
serialized in each of the three accepted formats (code-fence-wrapped
canonical JSON, single-quoted JSON, JSON with trailing commas) is repaired
back to a text that parses to the original value. Non-object values (and
values with unsafe characters) are outside the function\x27s brace-slice
reach. -/
theorem c9_repair_idempotent_roundtrip :
    (∀ s : List Char, extract_json (extract_json s) = extract_json s) ∧
    (∀ kvs : List (String × PyJson), safeJson (.obj kvs) = true →
      json_loads (extract_json (fence_wrap (ser (.obj kvs)))) = some (.obj kvs) ∧
      json_loads (extract_json (ser_single (.obj kvs))) = some (.obj kvs) ∧
      json_loads (extract_json (ser_trail (.obj kvs))) = some (.obj kvs)) :=
  ⟨extract_json_idem, fun _ hx => ⟨repair_fence hx, repair_single hx, repair_trail hx⟩⟩

theorem c9_witness :
    safeJson (.obj [("a", .int 1)]) = true ∧
    json_loads (extract_json (ser_single (.obj [("a", .int 1)])))
      = some (.obj [("a", .int 1)]) :=
  ⟨rfl, (c9_repair_idempotent_roundtrip.2 [("a", .int 1)] rfl).2.1⟩

theorem c9_counterexample :
    safeJson (.arr [.str "a"]) = true ∧
    json_loads (extract_json (fence_wrap (ser (.arr [.str "a"])))) = none :=
  ⟨rfl, rfl⟩

/-! ## Claim theorems -/

theorem pyAssocGet_set_self {α : Type} (m : List (String × α)) (k : String) (v : α) :
    pyAssocGet (pyAssocSet m k v) k = some v := by
  induction m with
  | nil => simp [pyAssocSet, pyAssocGet]
  | cons kv t ih =>
    obtain ⟨k0, v0⟩ := kv
    by_cases h : k0 = k
    · simp [pyAssocSet, pyAssocGet, h]
    · simp [pyAssocSet, pyAssocGet, h, ih]

/-- C1: with a session present and context extraction returning a
`ProcessDescription` with empty `name` or empty `steps`, the improvement
workflow returns status `"clarification_needed"`, stores session status
`"Clarification Needed"`, and its collaborator trace is exactly the context
call: zero bottleneck, information-retrieval, solution or diagram calls
happen after the gate. -/
theorem c1_clarification_gate (env : Env) (sessions : Sessions)
    (session_id query : String) (file_texts file_type : Option String)
    (sd : SessionData) (pd : ProcessDescription)
    (hs : pyAssocGet sessions session_id = some sd)
    (hpq : env.process_query query = .ok pd)
    (hgate : pd.name = "" ∨ pd.steps = []) :
    (improvement_workflow env sessions session_id query file_texts file_type).1.status
        = "clarification_needed" ∧
    (pyAssocGet
        (improvement_workflow env sessions session_id query file_texts file_type).2.1
        session_id).map SessionData.status = some "Clarification Needed" ∧
    (improvement_workflow env sessions session_id query file_texts file_type).2.2
        = [AgentCall.contextCall] := by
  simp only [improvement_workflow, hs, hpq]
  rw [if_pos hgate]
  refine ⟨rfl, ?_, rfl⟩
  rw [pyAssocGet_set_self]
  rfl

/-- C3: resuming an existing session whose status is not
`"Clarification Needed"` returns a structured error result with a
descriptive message and leaves the sessions map — hence the session record —
entirely unchanged. -/
theorem c3_resume_wrong_state (env : Env) (sessions : Sessions)
    (session_id clarification_response : String) (sd : SessionData)
    (hs : pyAssocGet sessions session_id = some sd)
    (hne : sd.status ≠ "Clarification Needed") :
    resume_session_with_clarification env sessions session_id clarification_response
      = .ok ({ status := "error", message := "Session is not awaiting clarification.",
               session_id := none, data := none }, sessions, []) := by
  simp only [resume_session_with_clarification, hs]
  rw [if_pos hne]

/-- C5: a `handle_conversation` call classified as conversation-type
`"question"` returns `detail_descriptions` equal to the empty map,
`diagram_data` character-for-character equal to the input diagram, action
`"answer_question"`, and the input memory with the Q/A pair appended. -/
theorem c5_question_branch (env : Env) (sessions : Sessions)
    (session_id query diagram_data memory : String) (sd : SessionData)
    (hs : pyAssocGet sessions session_id = some sd)
    (hq : determine_conversation_type env query = "question") :
    ∃ answer,
      (handle_conversation env sessions session_id query diagram_data memory).1
        = { status := "completed", message := "Question answered successfully!",
            session_id := some session_id,
            data := some (.conv "answer_question" (.str diagram_data) (.obj [])
              (.str answer)
              (memory ++ "\nQ: " ++ query ++ "\nA: " ++ answer)) } := by
  simp only [handle_conversation, hs, hq]
  exact ⟨_, rfl⟩

/-- C6: when the completion call of `_modify_diagram` raises, or its
response survives neither a direct `json.loads` of the brace slice nor the
`fix_json` quote/trailing-comma fixups, the function returns the original
diagram unchanged, an empty `detail_descriptions` map, and the localized
"sorry, could not process" summary. -/
theorem c6_modify_fallback (env : Env) (query diagram_data memory : String)
    (sd : SessionData) (language : String)
    (hfail :
      (∃ e, env.modifyLLM query diagram_data memory sd.diagram_description language
          = .error e) ∨
      (∃ resp, env.modifyLLM query diagram_data memory sd.diagram_description language
          = .ok resp ∧
        json_loads (mod_json_str resp) = none ∧
        json_loads (fix_json (mod_json_str resp)) = none)) :
    modify_diagram env query diagram_data memory sd language
      = { diagram_data := .str diagram_data, detail_descriptions := .obj [],
          summary := .str (fallback_message language) } := by
  rcases hfail with ⟨e, he⟩ | ⟨resp, hok, h1, h2⟩
  · simp only [modify_diagram, he]
    rfl
  · simp only [modify_diagram, hok, h1, h2]
    rfl

/-- C2 (amended): resuming a session in `"Clarification Needed"` state
appends the clarification to the stored query and restarts processing from
scratch through `process_user_query` — which first re-classifies intent, and
runs the full improvement pipeline from step 1 exactly when the
re-classified intent is neither `"visualize"` nor `"conversation"`. -/
theorem c2_resume_restarts (env : Env) (sessions : Sessions)
    (session_id clarification_response : String) (sd : SessionData) (q : String)
    (hs : pyAssocGet sessions session_id = some sd)
    (hst : sd.status = "Clarification Needed")
    (hq : sd.query = some q) :
    resume_session_with_clarification env sessions session_id clarification_response
      = .ok (process_user_query env
          (pyAssocSet sessions session_id
            { sd with query := some (q ++ "\n\nUser Clarification: "
                ++ clarification_response) })
          session_id (q ++ "\n\nUser Clarification: " ++ clarification_response)
          sd.original_file_texts sd.original_file_type "" "") ∧
    (determine_user_intent env
        (q ++ "\n\nUser Clarification: " ++ clarification_response) ≠ "visualize" →
     determine_user_intent env
        (q ++ "\n\nUser Clarification: " ++ clarification_response) ≠ "conversation" →
     ∃ r ss tr,
       improvement_workflow env
          (pyAssocSet sessions session_id
            { sd with query := some (q ++ "\n\nUser Clarification: "
                ++ clarification_response) })
          session_id (q ++ "\n\nUser Clarification: " ++ clarification_response)
          sd.original_file_texts sd.original_file_type = (r, ss, tr) ∧
       resume_session_with_clarification env sessions session_id clarification_response
         = .ok (r, ss, .intentCall :: tr)) := by
  constructor
  · simp only [resume_session_with_clarification, hs, hq]
    rw [if_neg (by simp [hst])]
  · intro h1 h2
    refine ⟨_, _, _, rfl, ?_⟩
    simp only [resume_session_with_clarification, hs, hq]
    rw [if_neg (by simp [hst])]
    simp only [process_user_query]
    rw [if_neg h1, if_neg h2]
    rfl

/-- C4 (refuting the safety claim): a session that completes through the
visualize-only pipeline — which never assigns `improved_process` — makes the
subsequent `get_session_status` dereference
`session_data["improved_process"].summary_of_changes` on `None` and raise
`AttributeError` instead of returning a structured result. -/
theorem c4_get_status_raises (env : Env) (sessions : Sessions)
    (session_id query : String) (file_texts file_type : Option String)
    (sd : SessionData) (pd : ProcessDescription) (viz : VizResult)
    (hs : pyAssocGet sessions session_id = some sd)
    (himp : sd.improved_process = none)
    (hpq : env.process_query query = .ok pd)
    (hcomplete : ¬ (pd.name = "" ∨ pd.steps = []))
    (hviz : env.generate_diagram pd.name pd.steps
        ("Goal: " ++ (pd.goal.getD "None") ++ ". Inputs: " ++ pyJoin ", " pd.inputs
          ++ ". Outputs: " ++ pyJoin ", " pd.outputs)
        (file_texts.getD "") = .ok viz) :
    (visualize_process_only env sessions session_id query file_texts file_type).1.status
        = "completed" ∧
    get_session_status
        (visualize_process_only env sessions session_id query file_texts file_type).2.1
        session_id
      = .error "AttributeError: NoneType object has no attribute summary_of_changes" := by
  simp only [visualize_process_only, hs, hpq]
  rw [if_neg hcomplete]
  simp only [hviz]
  refine ⟨by trivial, ?_⟩
  simp only [get_session_status, pyAssocGet_set_self]
  simp [himp]

/-- C8 (amended): when the first bottleneck pass yields hypotheses and the
retrieval loop succeeds with at least one record, bottleneck identification
runs a second time with the first retrieved record; its result replaces the
first hypothesis list only when it is non-empty — an empty refinement keeps
the first list. The stored list is unchanged by the remaining pipeline steps
whatever their outcome. -/
theorem c8_refinement_overwrites (env : Env) (sessions : Sessions)
    (session_id query : String) (file_texts file_type : Option String)
    (sd : SessionData) (pd : ProcessDescription)
    (b0 : BottleneckHypothesis) (brest : List BottleneckHypothesis)
    (v0 : VerifiedInformation) (vrest : List VerifiedInformation)
    (sd4 : SessionData) (tr4 : List AgentCall)
    (refined : List BottleneckHypothesis)
    (hs : pyAssocGet sessions session_id = some sd)
    (hpq : env.process_query query = .ok pd)
    (hcomplete : ¬ (pd.name = "" ∨ pd.steps = []))
    (hbot : env.identify_bottlenecks pd none = .ok (b0 :: brest))
    (hloop : irLoop env b0.info_needed []
        { sd with
          query := some query
          original_file_texts := file_texts
          original_file_type := file_type
          status := "Processing Query"
          process_desc := some pd
          bottlenecks := b0 :: brest
          last_step_completed := some "bottleneck_hypotheses" }
        [.contextCall, .bottleneckCall] = .ok (v0 :: vrest, sd4, tr4))
    (href : env.identify_bottlenecks pd (some v0) = .ok refined) :
    (pyAssocGet
        (improvement_workflow env sessions session_id query file_texts file_type).2.1
        session_id).map SessionData.bottlenecks
      = some (if refined = [] then sd4.bottlenecks else refined) := by
  simp only [improvement_workflow, hs, hpq]
  rw [if_neg hcomplete]
  simp only [hbot, hloop, href]
  by_cases hr : refined = []
  · rw [if_pos hr, if_pos hr]
    cases hsol : env.generate_solutions pd sd4.bottlenecks sd4.verified_info with
    | error e => simp [hsol, improvementError, pyAssocGet_set_self]
    | ok ip =>
      cases hviz : env.generate_diagram ip.name ip.improved_steps
          ("Improved process based on: " ++ ip.summary_of_changes)
          (file_texts.getD "") with
      | error e => simp [hsol, hviz, improvementError, pyAssocGet_set_self]
      | ok viz => simp [hsol, hviz, pyAssocGet_set_self]
  · rw [if_neg hr, if_neg hr]
    cases hsol : env.generate_solutions pd refined sd4.verified_info with
    | error e => simp [hsol, improvementError, pyAssocGet_set_self]
    | ok ip =>
      cases hviz : env.generate_diagram ip.name ip.improved_steps
          ("Improved process based on: " ++ ip.summary_of_changes)
          (file_texts.getD "") with
      | error e => simp [hsol, hviz, improvementError, pyAssocGet_set_self]
      | ok viz => simp [hsol, hviz, pyAssocGet_set_self]

theorem pyLookup_strval {kvs : List (String × PyJson)}
    (h : kvs.all (fun kv => isStrVal kv.2) = true) {k : String} {v : PyJson}
    (hl : pyLookup kvs k = some v) : isStrVal v = true := by
  induction kvs with
  | nil => simp [pyLookup] at hl
  | cons kv t ih =>
    obtain ⟨k0, v0⟩ := kv
    simp only [List.all_cons, Bool.and_eq_true] at h
    rw [pyLookup] at hl
    by_cases hk : k0 = k
    · rw [if_pos hk] at hl
      cases hl
      exact h.1
    · rw [if_neg hk] at hl
      exact ih h.2 hl

theorem buildResults_ok {results : List PyJson}
    (h : ∀ r ∈ results, isStrObj r = true) : ∀ i, ∃ txt srcs,
    buildResults results i = .ok (txt, srcs) ∧ ∀ v ∈ srcs, isStrVal v = true := by
  induction results with
  | nil => exact fun i => ⟨"", [], rfl, by simp⟩
  | cons r rest ih =>
    intro i
    have hr := h r (by simp)
    cases r with
    | obj kvs =>
      obtain ⟨txt, srcs, hb, hstr⟩ := ih (fun x hx => h x (by simp [hx])) (i + 1)
      refine ⟨resultsTextEntry i kvs ++ txt,
        ((pyLookup kvs "url").getD (.str ("Result " ++ toString i))) :: srcs, ?_, ?_⟩
      · rw [buildResults, hb]
      · intro v hv
        rcases List.mem_cons.mp hv with rfl | hv2
        · cases hu : pyLookup kvs "url" with
          | none => simp [hu, isStrVal]
          | some u =>
            simp only [hu, Option.getD_some]
            exact pyLookup_strval (by simpa [isStrObj] using hr) hu
        · exact hstr v hv2
    | null => simp [isStrObj] at hr
    | bool b => simp [isStrObj] at hr
    | int n => simp [isStrObj] at hr
    | str a => simp [isStrObj] at hr
    | arr xs => simp [isStrObj] at hr

theorem collectStrs_ok {srcs : List PyJson} (h : ∀ v ∈ srcs, isStrVal v = true) :
    ∃ l, mkVerifiedInformation.collectStrs srcs = some l := by
  induction srcs with
  | nil => exact ⟨[], rfl⟩
  | cons v t ih =>
    obtain ⟨l, hl⟩ := ih (fun x hx => h x (by simp [hx]))
    have hv := h v (by simp)
    cases v with
    | str a => exact ⟨a :: l, by rw [mkVerifiedInformation.collectStrs, hl]; rfl⟩
    | null => simp [isStrVal] at hv
    | bool b => simp [isStrVal] at hv
    | int n => simp [isStrVal] at hv
    | arr xs => simp [isStrVal] at hv
    | obj kvs => simp [isStrVal] at hv

theorem create_fallback_ok {srcs : List PyJson} (h : ∀ v ∈ srcs, isStrVal v = true)
    (query : String) (search_results : List PyJson) :
    ∃ vi, create_fallback_info query search_results srcs = .ok vi := by
  obtain ⟨l, hl⟩ := collectStrs_ok h
  refine ⟨{
      query := query
      sources := l
      summary := "Found " ++ toString search_results.length
        ++ " search results for \x27" ++ query
        ++ "\x27. Information available but requires manual review for specific application."
      confidence := "Medium"
      relevance := "Indirect" }, ?_⟩
  unfold create_fallback_info mkVerifiedInformation
  rw [hl]

/-- C7 (amended): an empty search-result list yields exactly the
`Low`/`Indirect`/"No relevant information found" sentinel; and when every
search result is a JSON object with string values — the documented search
collaborator shape — verification and `retrieve_and_verify` always return a
fully populated record and never raise. -/
theorem c7_retrieval_populated :
    (∀ (env : IREnv) (query : String),
      verify_and_summarize_info env query []
        = .ok { query := query, sources := [],
                summary := "No relevant information found for this query.",
                confidence := "Low", relevance := "Indirect" }) ∧
    (∀ (env : IREnv) (query : String) (results : List PyJson),
      (∀ r ∈ results, isStrObj r = true) →
      ∃ vi, verify_and_summarize_info env query results = .ok vi) ∧
    (∀ (env : IREnv) (query : String),
      (∀ r ∈ search_google env query 5, isStrObj r = true) →
      ∃ vi, retrieve_and_verify env query = .ok vi) := by
  have main : ∀ (env : IREnv) (query : String) (results : List PyJson),
      (∀ r ∈ results, isStrObj r = true) →
      ∃ vi, verify_and_summarize_info env query results = .ok vi := by
    intro env query results h
    cases results with
    | nil => exact ⟨_, rfl⟩
    | cons r rest =>
      obtain ⟨txt, srcs, hb, hstr⟩ := buildResults_ok h 1
      simp only [verify_and_summarize_info, hb]
      split
      · exact create_fallback_ok hstr query (r :: rest)
      · split
        · exact create_fallback_ok hstr query (r :: rest)
        · split
          · split
            · rename_i vi hvi
              exact ⟨vi, rfl⟩
            · exact create_fallback_ok hstr query (r :: rest)
          · exact create_fallback_ok hstr query (r :: rest)
  exact ⟨fun env query => rfl, main,
    fun env query h => main env query (search_google env query 5) h⟩

theorem pyAssocSet_length_le {α : Type} (m : List (String × α)) (k : String) (v : α) :
    (pyAssocSet m k v).length ≤ m.length + 1 := by
  induction m with
  | nil => simp [pyAssocSet]
  | cons kv t ih =>
    obtain ⟨k0, v0⟩ := kv
    by_cases h : k0 = k
    · simp [pyAssocSet, h]
    · simp only [pyAssocSet, if_neg h, List.length_cons]
      omega

theorem pyAssocSet_length_mem {α : Type} (m : List (String × α)) (k : String) (v : α)
    (h : k ∈ m.map Prod.fst) : (pyAssocSet m k v).length = m.length := by
  induction m with
  | nil => simp at h
  | cons kv t ih =>
    obtain ⟨k0, v0⟩ := kv
    by_cases hk : k0 = k
    · simp [pyAssocSet, hk]
    · simp only [List.map_cons, List.mem_cons] at h
      rcases h with h | h
    
      · exact absurd h.symm hk
      · simp [pyAssocSet, if_neg hk, ih h]

theorem pyAssocSet_mem_keys {α : Type} (m : List (String × α)) (k : String) (v : α) :
    k ∈ (pyAssocSet m k v).map Prod.fst := by
  induction m with
  | nil => simp [pyAssocSet]
  | cons kv t ih =>
    obtain ⟨k0, v0⟩ := kv
    by_cases hk : k0 = k
    · simp [pyAssocSet, hk]
    · simp [pyAssocSet, if_neg hk, ih]

theorem pyAssocSet_keys_mono {α : Type} (m : List (String × α)) (k k2 : String) (v : α)
    (h : k ∈ m.map Prod.fst) : k ∈ (pyAssocSet m k2 v).map Prod.fst := by
  induction m with
  | nil => simp at h
  | cons kv t ih =>
    obtain ⟨k0, v0⟩ := kv
    simp only [List.map_cons, List.mem_cons] at h
    by_cases hk : k0 = k2
    · simp only [pyAssocSet, if_pos hk, List.map_cons, List.mem_cons]
      exact h
    · simp only [pyAssocSet, if_neg hk, List.map_cons, List.mem_cons]
      rcases h with h | h
      · exact Or.inl h
      · exact Or.inr (ih h)

theorem od_fold_le (imps : List ProposedImprovement) :
    ∀ acc, (imps.foldl odStep acc).length ≤ acc.length + imps.length := by
  induction imps with
  | nil => simp
  | cons imp t ih =>
    intro acc
    calc ((imp :: t).foldl odStep acc).length = (t.foldl odStep (odStep acc imp)).length := rfl
    _ ≤ (odStep acc imp).length + t.length := ih _
    _ ≤ (acc.length + 1) + t.length := by
        have hstep : (odStep acc imp).length ≤ acc.length + 1 := by
          simpa [odStep] using pyAssocSet_length_le acc (descKey imp.description)
            (imp.description ++ " (Expected Impact: " ++ imp.expected_impact ++ ")")
        omega
    _ = acc.length + (imp :: t).length := by simp; omega

theorem od_fold_keys_mono (imps : List ProposedImprovement) :
    ∀ acc k, k ∈ acc.map Prod.fst → k ∈ (imps.foldl odStep acc).map Prod.fst := by
  induction imps with
  | nil => exact fun acc k h => h
  | cons imp t ih =>
    intro acc k h
    exact ih _ _ (pyAssocSet_keys_mono _ _ _ _ h)

theorem od_fold_lt (imps : List ProposedImprovement) :
    ∀ acc k, k ∈ acc.map Prod.fst → k ∈ imps.map (fun imp => descKey imp.description) →
    (imps.foldl odStep acc).length < acc.length + imps.length := by
  induction imps with
  | nil => intro acc k h hk; simp at hk
  | cons imp t ih =>
    intro acc k h hk
    simp only [List.map_cons, List.mem_cons] at hk
    have hstep : (odStep acc imp).length ≤ acc.length + 1 := by
      simpa [odStep] using pyAssocSet_length_le acc (descKey imp.description)
        (imp.description ++ " (Expected Impact: " ++ imp.expected_impact ++ ")")
    by_cases hkt : k ∈ t.map (fun imp => descKey imp.description)
    · have h2 : k ∈ (odStep acc imp).map Prod.fst := pyAssocSet_keys_mono _ _ _ _ h
      have hlt := ih (odStep acc imp) k h2 hkt
      calc ((imp :: t).foldl odStep acc).length
          = (t.foldl odStep (odStep acc imp)).length := rfl
      _ < (odStep acc imp).length + t.length := hlt
      _ ≤ acc.length + (imp :: t).length := by
          simp only [List.length_cons]
          omega
    · rcases hk with hk | hk
      · have hlen : (odStep acc imp).length = acc.length := by
          simpa [odStep] using pyAssocSet_length_mem acc (descKey imp.description)
            (imp.description ++ " (Expected Impact: " ++ imp.expected_impact ++ ")")
            (hk ▸ h)
        calc ((imp :: t).foldl odStep acc).length
            = (t.foldl odStep (odStep acc imp)).length := rfl
        _ ≤ (odStep acc imp).length + t.length := od_fold_le t _
        _ = acc.length + t.length := by rw [hlen]
        _ < acc.length + (imp :: t).length := by simp
      · exact absurd hk hkt

/-- C10 (amended): `optimization_detail` never has more entries than the
improvements list; it has strictly fewer whenever two improvements share the
same truncated key (the first eight words plus the `"..."` ellipsis marker —
sharing the first eight words alone is not enough when exactly one of the
two descriptions is longer than eight words); and among colliding
improvements only the last one\x27s detail is kept. -/
theorem c10_optimization_detail_collapses :
    (∀ imps : List ProposedImprovement,
      (optimization_detail imps).length ≤ imps.length) ∧
    (∀ (pre mid post : List ProposedImprovement) (imp1 imp2 : ProposedImprovement),
      descKey imp1.description = descKey imp2.description →
      (optimization_detail (pre ++ imp1 :: mid ++ imp2 :: post)).length
        < (pre ++ imp1 :: mid ++ imp2 :: post).length) ∧
    (∀ imp1 imp2 : ProposedImprovement,
      descKey imp1.description = descKey imp2.description →
      optimization_detail [imp1, imp2]
        = [(descKey imp1.description,
            imp2.description ++ " (Expected Impact: " ++ imp2.expected_impact ++ ")")]) := by
  have oddef : ∀ imps : List ProposedImprovement,
      optimization_detail imps = imps.foldl odStep [] := fun _ => rfl
  refine ⟨?_, ?_, ?_⟩
  · intro imps
    have := od_fold_le imps []
    simpa [oddef] using this
  · intro pre mid post imp1 imp2 hk
    rw [oddef]
    rw [show pre ++ imp1 :: mid ++ imp2 :: post
      = (pre ++ [imp1]) ++ (mid ++ imp2 :: post) from by simp]
    rw [List.foldl_append]
    have hacc1 : descKey imp1.description
        ∈ (List.foldl odStep [] (pre ++ [imp1])).map Prod.fst := by
      rw [List.foldl_append]
      simp only [List.foldl_cons, List.foldl_nil]
      exact pyAssocSet_mem_keys _ _ _
    have hk2 : descKey imp1.description
        ∈ (mid ++ imp2 :: post).map (fun imp => descKey imp.description) := by
      rw [hk]
      simp
    have h1 := od_fold_lt (mid ++ imp2 :: post) _ _ hacc1 hk2
    have h2 := od_fold_le (pre ++ [imp1]) []
    simp only [List.length_append, List.length_cons, List.length_nil] at h1 h2 ⊢
    omega
  · intro imp1 imp2 hk
    rw [oddef]
    simp only [List.foldl_cons, List.foldl_nil, odStep, pyAssocSet]
    rw [← hk]
    simp [pyAssocSet]

/-! ## Witnesses and counterexamples -/

theorem c1_witness :
    (improvement_workflow envC1 [("s", sd0)] "s" "q" none none).1.status
        = "clarification_needed" ∧
    (pyAssocGet (improvement_workflow envC1 [("s", sd0)] "s" "q" none none).2.1
        "s").map SessionData.status = some "Clarification Needed" ∧
    (improvement_workflow envC1 [("s", sd0)] "s" "q" none none).2.2
        = [AgentCall.contextCall] :=
  c1_clarification_gate envC1 [("s", sd0)] "s" "q" none none sd0 pdBad rfl rfl
    (Or.inl rfl)

theorem c2_witness :
    resume_session_with_clarification envC2 [("s", sdClar)] "s" "more"
      = .ok (process_user_query envC2
          (pyAssocSet [("s", sdClar)] "s"
            { sdClar with query := some ("q0" ++ "\n\nUser Clarification: " ++ "more") })
          "s" ("q0" ++ "\n\nUser Clarification: " ++ "more")
          sdClar.original_file_texts sdClar.original_file_type "" "") :=
  (c2_resume_restarts envC2 [("s", sdClar)] "s" "more" sdClar "q0" rfl rfl rfl).1

theorem c2_counterexample :
    (resume_session_with_clarification envC2c [("s", sdClar)] "s" "more").map
        (fun r => r.1.message) = .ok "Process visualization complete!" ∧
    (improvement_workflow envC2c
        (pyAssocSet [("s", sdClar)] "s"
          { sdClar with query := some ("q0" ++ "\n\nUser Clarification: " ++ "more") })
        "s" ("q0" ++ "\n\nUser Clarification: " ++ "more") none none).1.message
      = "No clear bottlenecks identified." ∧
    ("Process visualization complete!" : String) ≠ "No clear bottlenecks identified." :=
  ⟨rfl, rfl, by decide⟩

theorem c3_witness :
    resume_session_with_clarification envC1 [("s", sd0)] "s" "more"
      = .ok ({ status := "error", message := "Session is not awaiting clarification.",
               session_id := none, data := none }, [("s", sd0)], []) :=
  c3_resume_wrong_state envC1 [("s", sd0)] "s" "more" sd0 rfl (by decide)

theorem c4_witness :
    (visualize_process_only envC2 [("s", sd0)] "s" "q" none none).1.status
        = "completed" ∧
    get_session_status (visualize_process_only envC2 [("s", sd0)] "s" "q" none none).2.1
        "s"
      = .error "AttributeError: NoneType object has no attribute summary_of_changes" :=
  c4_get_status_raises envC2 [("s", sd0)] "s" "q" none none sd0 pd0 viz0 rfl rfl rfl
    (by decide) rfl

theorem c5_witness :
    ∃ answer,
      (handle_conversation envC1 [("s", sd0)] "s" "q" "DIA" "MEM").1
        = { status := "completed", message := "Question answered successfully!",
            session_id := some "s",
            data := some (.conv "answer_question" (.str "DIA") (.obj [])
              (.str answer) ("MEM" ++ "\nQ: " ++ "q" ++ "\nA: " ++ answer)) } :=
  c5_question_branch envC1 [("s", sd0)] "s" "q" "DIA" "MEM" sd0 rfl rfl

theorem c6_witness :
    modify_diagram envC1 "q" "DIA" "MEM" sd0 "en"
      = { diagram_data := .str "DIA", detail_descriptions := .obj [],
          summary := .str (fallback_message "en") } :=
  c6_modify_fallback envC1 "q" "DIA" "MEM" sd0 "en" (Or.inl ⟨"boom", rfl⟩)

theorem c7_witness :
    ∃ vi, verify_and_summarize_info ⟨fun _ _ => .ok "resp", fun _ _ => .ok "x"⟩ "q"
      [.obj [("url", .str "u")]] = .ok vi :=
  c7_retrieval_populated.2.1 ⟨fun _ _ => .ok "resp", fun _ _ => .ok "x"⟩ "q"
    [.obj [("url", .str "u")]] (by decide)

theorem c7_counterexample :
    retrieve_and_verify ⟨fun _ _ => .ok "[1]", fun _ _ => .ok "x"⟩ "q"
      = .error "AttributeError: object has no attribute get" := rfl

theorem c8_witness :
    (pyAssocGet (improvement_workflow envC8 [("s", sd0)] "s" "q" none none).2.1
        "s").map SessionData.bottlenecks
      = some (if ([b1] : List BottleneckHypothesis) = [] then
          ({ sd0 with
              query := some "q"
              status := "Processing Query"
              process_desc := some pd0
              bottlenecks := [b0]
              last_step_completed := some "bottleneck_hypotheses"
              verified_info := [vi0] } : SessionData).bottlenecks
        else [b1]) :=
  c8_refinement_overwrites envC8 [("s", sd0)] "s" "q" none none sd0 pd0 b0 [] vi0 []
    { sd0 with
      query := some "q"
      status := "Processing Query"
      process_desc := some pd0
      bottlenecks := [b0]
      last_step_completed := some "bottleneck_hypotheses"
      verified_info := [vi0] }
    [.contextCall, .bottleneckCall, .irCall] [b1] rfl rfl (by decide) rfl rfl rfl

theorem c8_counterexample :
    (pyAssocGet (improvement_workflow envC8c [("s", sd0)] "s" "q" none none).2.1
        "s").map SessionData.bottlenecks = some [b0] ∧
    envC8c.identify_bottlenecks pd0 (some vi0) = .ok [] ∧
    ([b0] : List BottleneckHypothesis) ≠ [] :=
  ⟨rfl, rfl, by decide⟩

theorem c10_witness :
    (optimization_detail ([] ++ impA8 :: [] ++ impA8 :: [])).length
      < ([] ++ impA8 :: [] ++ impA8 :: [] : List ProposedImprovement).length :=
  c10_optimization_detail_collapses.2.1 [] [] [] impA8 impA8 rfl

theorem c10_counterexample :
    (pyWords impA8.description).take 8 = (pyWords impA9.description).take 8 ∧
    (optimization_detail [impA8, impA9]).length = 2 ∧
    ¬ ((optimization_detail [impA8, impA9]).length
        < ([impA8, impA9] : List ProposedImprovement).length) :=
  ⟨by decide, by decide, by decide⟩

end AIPO
